import Mathlib

/-!
# Verification of the calo target-validation and safe-execution pipeline

Shallow embedding of the security-critical pieces of the repository:

* `packages/worker/src/rate-limiter.ts` — `RateLimiter` (request budget,
  execution-slot counter, timeout helper);
* `packages/backend/src/security/host-validator.service.ts` —
  `HostValidatorService.validateHost`;
* `ssrf-guard.service.ts` — `SsrfGuardService.validateDnsResolution`,
  `isPrivateIPv4`, `isPrivateIPv6`, `BLOCKED_IP_RANGES`;
* `redaction.service.ts` — `RedactionService.redactText` and its pattern
  list (JS regexes embedded via a small backtracking engine);
* `packages/worker/src/tools/executor.ts` — the probe dispatcher and its
  `redactOutput` helper;
* `packages/worker/src/index.ts` — the worker job processor;
* `packages/backend/src/tool-runs/tool-runs.service.ts` — `cancel`.

Strings are embedded as `List Char`; JS numbers used as counters are
embedded as `Nat` / `Int` with explicit wrapping where JS bit-operations
occur.
-/

/-- Text is embedded as a list of characters. -/
abbrev Str := List Char

/-- Shorthand to write character-list literals. -/
def str (s : String) : Str := s.toList

namespace Calo

/-! ## Worker RateLimiter (`packages/worker/src/rate-limiter.ts`) -/

/-- `RateLimiterConfig` from `rate-limiter.ts`. -/
structure RateLimiterConfig where
  minDelayMs : Nat
  maxRequestsPerRun : Nat
  maxConcurrent : Nat
  timeoutMs : Nat
deriving Repr, DecidableEq

/-- `RunState` from `rate-limiter.ts`: per-run rate bookkeeping. -/
structure RunState where
  lastRequestTime : Nat
  requestCount : Nat
deriving Repr, DecidableEq

/-- The mutable fields of class `RateLimiter`: the per-run state map and
the process-wide `activeExecutions` counter (a JS number, embedded as
`Int` so that the no-underflow claim is meaningful). -/
structure RateLimiterState where
  runStates : List (String × RunState)
  activeExecutions : Int
deriving Repr, DecidableEq

/-- Fresh `RateLimiter`: empty map, `activeExecutions = 0`. -/
def RateLimiterState.init : RateLimiterState := ⟨[], 0⟩

/-- `Map.get` on the embedded `runStates` map. -/
def lookupRun (m : List (String × RunState)) (runId : String) : Option RunState :=
  match m with
  | [] => none
  | (k, v) :: rest => if k = runId then some v else lookupRun rest runId

/-- `Map.set` on the embedded `runStates` map. -/
def setRun (m : List (String × RunState)) (runId : String) (s : RunState) :
    List (String × RunState) :=
  match m with
  | [] => [(runId, s)]
  | (k, v) :: rest =>
      if k = runId then (runId, s) :: rest else (k, v) :: setRun rest runId s

/-- The error thrown by `waitForRequestSlot` when the per-run request
budget is exhausted ("Maximum request limit (N) reached. ..."). -/
inductive RateLimitError where
  | requestBudgetExceeded
deriving Repr, DecidableEq

/-- `RateLimiter.waitForRequestSlot(runId)`.

`now` is the value of `Date.now()` at the head of the call.  The JS code
reads (or lazily creates) the per-run state, throws if
`requestCount >= maxRequestsPerRun`, otherwise sleeps the computed delay,
increments `requestCount` and stores `lastRequestTime = Date.now()`
(embedded as `now + delayNeeded`, the clock after the sleep).  The result
is the returned new count (or the thrown error) paired with the state of
the limiter after the call. -/
def waitForRequestSlot (cfg : RateLimiterConfig) (st : RateLimiterState)
    (runId : String) (now : Nat) :
    Except RateLimitError Nat × RateLimiterState :=
  let state := (lookupRun st.runStates runId).getD ⟨0, 0⟩
  let st :=
    if (lookupRun st.runStates runId).isSome then st
    else { st with runStates := setRun st.runStates runId ⟨0, 0⟩ }
  if state.requestCount ≥ cfg.maxRequestsPerRun then
    (.error .requestBudgetExceeded, st)
  else
    let timeSinceLastRequest := now - state.lastRequestTime
    let delayNeeded := cfg.minDelayMs - timeSinceLastRequest
    let state' : RunState :=
      ⟨now + delayNeeded, state.requestCount + 1⟩
    (.ok state'.requestCount,
      { st with runStates := setRun st.runStates runId state' })

/-- `RateLimiter.resetRunState(runId)`. -/
def resetRunState (st : RateLimiterState) (runId : String) : RateLimiterState :=
  { st with runStates := setRun st.runStates runId ⟨0, 0⟩ }

/-- `RateLimiter.waitForExecutionSlot()`.  While
`activeExecutions >= maxConcurrent` the call sleeps in a loop without
touching the counter; once below the ceiling it increments.  The embedded
value is the counter after the call returns (identity while the caller is
still blocked in the polling loop). -/
def waitForExecutionSlot (cfg : RateLimiterConfig) (active : Int) : Int :=
  if active < (cfg.maxConcurrent : Int) then active + 1 else active

/-- `RateLimiter.releaseExecutionSlot()`: decrement only when strictly
positive. -/
def releaseExecutionSlot (active : Int) : Int :=
  if active > 0 then active - 1 else active

/-- The calls that touch the limiter state, for trace-style theorems. -/
inductive RLOp where
  | request (runId : String) (now : Nat)
  | reset (runId : String)
  | waitExec
  | releaseExec
deriving Repr, DecidableEq

/-- Apply one limiter call to the limiter state (the return value of
`waitForRequestSlot` is dropped; only the state evolution matters for the
invariants). -/
def applyRLOp (cfg : RateLimiterConfig) (st : RateLimiterState) :
    RLOp → RateLimiterState
  | .request runId now => (waitForRequestSlot cfg st runId now).2
  | .reset runId => resetRunState st runId
  | .waitExec => { st with activeExecutions := waitForExecutionSlot cfg st.activeExecutions }
  | .releaseExec => { st with activeExecutions := releaseExecutionSlot st.activeExecutions }

/-- Run a sequence of limiter calls from a starting state. -/
def applyRLOps (cfg : RateLimiterConfig) (st : RateLimiterState) :
    List RLOp → RateLimiterState
  | [] => st
  | op :: ops => applyRLOps cfg (applyRLOp cfg st op) ops

/-- The request count currently recorded for a run (0 when absent). -/
def requestCountOf (st : RateLimiterState) (runId : String) : Nat :=
  ((lookupRun st.runStates runId).getD ⟨0, 0⟩).requestCount

/-! ## Run cancellation (`tool-runs.service.ts`) -/

/-- `ToolRunStatus` from the Prisma schema, as used by the backend and the
worker. -/
inductive ToolRunStatus where
  | queued | running | completed | failed | timeout | cancelled
deriving Repr, DecidableEq

/-- The four terminal statuses of the run state machine. -/
def ToolRunStatus.isTerminal : ToolRunStatus → Bool
  | .completed | .failed | .timeout | .cancelled => true
  | _ => false

/-- Error thrown by `ToolRunsService.cancel` ("Cannot cancel a completed
tool run"). -/
inductive CancelError where
  | cannotCancel
deriving Repr, DecidableEq

/-- `ToolRunsService.cancel(id)`, as a function of the stored status of
the run: it rejects when the status is `COMPLETED` or `FAILED`, and
otherwise updates the stored status to `CANCELLED`. -/
def cancelRun (status : ToolRunStatus) : Except CancelError ToolRunStatus :=
  if status = .completed ∨ status = .failed then
    .error .cannotCancel
  else
    .ok .cancelled

/-! ## String utilities shared by the embeddings

JS string operations used by the sources, over `Str = List Char`. -/

/-- `String.prototype.toLowerCase` (ASCII, which is all the sources need). -/
def lowerC (l : Str) : Str := l.map Char.toLower

/-- The whitespace class of `String.prototype.trim`. -/
def isJsSpace (c : Char) : Bool :=
  c = ' ' ∨ c = '\t' ∨ c = '\n' ∨ c = '\r' ∨ c = '\x0b' ∨ c = '\x0c'

/-- `String.prototype.trim`. -/
def trimC (l : Str) : Str :=
  ((l.dropWhile isJsSpace).reverse.dropWhile isJsSpace).reverse

/-- `.replace(/\.+$/, '')`: drop the trailing run of dots. -/
def dropTrailingDots (l : Str) : Str :=
  (l.reverse.dropWhile (· = '.')).reverse

/-- `s.split(sep)` for a single-character separator. -/
def splitOnC (sep : Char) : Str → List Str
  | [] => [[]]
  | c :: cs =>
      if c = sep then [] :: splitOnC sep cs
      else
        match splitOnC sep cs with
        | [] => [[c]]
        | p :: ps => (c :: p) :: ps

/-- `.replace(/^https?:\/\//i, '')` on an already-lowercased string. -/
def stripScheme (l : Str) : Str :=
  if (str "https://").isPrefixOf l then l.drop 8
  else if (str "http://").isPrefixOf l then l.drop 7
  else l

/-! ## IP-literal grammar (`net.isIP`, as called by `validateHost`) -/

/-- Decimal value of a digit string. -/
def natOfDigits (l : Str) : Nat :=
  l.foldl (fun n c => 10 * n + (c.toNat - '0'.toNat)) 0

/-- One dotted-decimal IPv4 octet: 0-255, no leading zero. -/
def isOctet (p : Str) : Bool :=
  ¬p.isEmpty ∧ p.all Char.isDigit ∧ p.length ≤ 3 ∧
    (p = ['0'] ∨ (p.head? ≠ some '0' ∧ natOfDigits p ≤ 255))

/-- `net.isIPv4`: four dotted octets. -/
def isIPv4 (l : Str) : Bool :=
  match splitOnC '.' l with
  | [a, b, c, d] => isOctet a ∧ isOctet b ∧ isOctet c ∧ isOctet d
  | _ => false

/-- Hexadecimal digit (either case), as allowed in an IPv6 group. -/
def isHexC (c : Char) : Bool :=
  c.isDigit ∨ ('a' ≤ c ∧ c ≤ 'f') ∨ ('A' ≤ c ∧ c ≤ 'F')

/-- One IPv6 group: 1-4 hex digits. -/
def isHexGroup (p : Str) : Bool :=
  ¬p.isEmpty ∧ p.length ≤ 4 ∧ p.all isHexC

/-- Groups after a `::` compression (`n` = groups expressed so far).
The final colon-separated part may be empty (address ending in `::`),
a hex group, or a dotted IPv4 tail (counting as two groups); with a
compression the total number of expressed groups is at most 7.
A further empty part (a second `::` or a `:::`) is rejected because the
empty list is neither a hex group nor an IPv4 tail. -/
def ipv6After : List Str → Nat → Bool
  | [], _ => false
  | [p], n =>
      if p.isEmpty then n ≤ 7
      else (isHexGroup p ∧ n + 1 ≤ 7) ∨ (isIPv4 p ∧ n + 2 ≤ 7)
  | p :: rest, n => isHexGroup p ∧ ipv6After rest (n + 1)

/-- Groups before any compression (`n` = groups consumed so far).
Without a compression the address has exactly 8 groups (an IPv4 tail
counting as two); an empty part in the middle is the `::`. -/
def ipv6Before : List Str → Nat → Bool
  | [], _ => false
  | [p], n => (isHexGroup p ∧ n = 7) ∨ (isIPv4 p ∧ n = 6)
  | p :: rest, n =>
      if p.isEmpty then ipv6After rest n
      else isHexGroup p ∧ ipv6Before rest (n + 1)

/-- `net.isIPv6` (zone suffixes aside): the colon-separated parts form a
valid (possibly `::`-compressed, possibly IPv4-tailed) IPv6 address.
A leading empty part is only allowed as part of a leading `::`. -/
def isIPv6 (l : Str) : Bool :=
  match splitOnC ':' l with
  | [] :: rest =>
      match rest with
      | [] :: rest2 => ipv6After rest2 0
      | _ => false
  | parts => ipv6Before parts 0

/-- `parts.join` with a separator between parts: the inverse of
`splitOnC`, used to relate a string to its split. -/
def joinSep (sep : Char) : List Str → Str
  | [] => []
  | [p] => p
  | p :: ps => p ++ sep :: joinSep sep ps

/-- `net.isIP` truthiness as used in `validateHost`. -/
def isIP (l : Str) : Bool := isIPv4 l ∨ isIPv6 l

/-! ## Public-suffix parsing (the `psl` npm package, modelled)

`validateHost` delegates registrable-domain extraction to `psl.parse`.
The package is rule-list driven: the matching rule is the longest listed
suffix of the label list, with the implicit default rule `*` matching the
last label; the registrable domain exists only when the host has strictly
more labels than the matched suffix. -/

/-- Length of the matched public suffix: longest nonempty listed rule that
is a suffix of the labels, with the implicit one-label default rule. -/
def pslSuffixLen (rules : List (List Str)) (labels : List Str) : Nat :=
  rules.foldl
    (fun acc r => if ¬r.isEmpty ∧ r.isSuffixOf labels then max acc r.length else acc)
    1

/-- Result of `psl.parse`: the registrable domain (eTLD+1), if any, and
whether the matched suffix was actually listed. -/
structure PslParsed where
  domain : Option Str
  listed : Bool
deriving Repr, DecidableEq

/-- `psl.parse` on a hostname. -/
def pslParse (rules : List (List Str)) (host : Str) : PslParsed :=
  let labels := splitOnC '.' host
  let sl := pslSuffixLen rules labels
  { domain :=
      if sl < labels.length then
        some (List.intercalate ['.'] (labels.drop (labels.length - (sl + 1))))
      else none
    listed := rules.any (fun r => ¬r.isEmpty ∧ r.isSuffixOf labels) }

/-! ## HostValidatorService (`host-validator.service.ts`) -/

/-- The rejection reasons of `validateHost`, one per `throw` site. -/
inductive HostError where
  | required
  | ipNotAllowed
  | bracketedIPv6NotAllowed
  | dangerousHost
  | invalidFormat
  | blockedTld
  | noDomain
  | notListed
deriving Repr, DecidableEq

/-- `BLOCKED_TLDS` from `host-validator.service.ts`. -/
def blockedTlds : List Str :=
  [str "local", str "localhost", str "internal", str "intranet",
   str "corp", str "home", str "lan", str "localdomain"]

/-- `/^172\.(1[6-9]|2[0-9]|3[0-1])\./` from `DANGEROUS_PATTERNS`. -/
def rfc1918SecondOctet (l : Str) : Bool :=
  (str "172.").isPrefixOf l &&
    match l.drop 4 with
    | a :: b :: '.' :: _ =>
        (a == '1' && decide ('6' ≤ b) && decide (b ≤ '9')) ||
          (a == '2' && b.isDigit) || (a == '3' && (b == '0' || b == '1'))
    | _ => false

/-- `DANGEROUS_PATTERNS` from `host-validator.service.ts`, each regex as a
test on the (already lowercased) host. -/
def dangerousPatterns : List (Str → Bool) :=
  [fun l => l = str "localhost",
   fun l => (str "127.").isPrefixOf l,
   fun l => (str "10.").isPrefixOf l,
   rfc1918SecondOctet,
   fun l => (str "192.168.").isPrefixOf l,
   fun l => (str "169.254.").isPrefixOf l,
   fun l => l = str "::1",
   fun l => (str "fc00:").isPrefixOf l,
   fun l => (str "fe80:").isPrefixOf l,
   fun l => (str "fd").isPrefixOf l,
   fun l => l = str "0.0.0.0",
   fun l => l.head? = some '[' ∧ l.getLast? = some ']' ∧ 2 ≤ l.length,
   fun l => (str "metadata.").isPrefixOf l,
   fun l => l = str "169.254.169.254",
   fun l => (str "metadata.google.").isPrefixOf l]

/-- `/^\[.*\]/` test (the dedicated bracket check, unanchored at the end). -/
def bracketTest (l : Str) : Bool :=
  l.head? = some '[' ∧ (l.drop 1).contains ']'

/-- One label of the strict hostname grammar
`[a-z0-9]([a-z0-9-]*[a-z0-9])?` (case-insensitive). -/
def labelOk (p : Str) : Bool :=
  !p.isEmpty && p.all (fun c => c.isAlphanum || c == '-') &&
    (match p.head? with | some c => c.isAlphanum | none => false) &&
    (match p.getLast? with | some c => c.isAlphanum | none => false)

/-- The full hostname-format regex of `validateHost`: dot-separated labels. -/
def hostnameFormatOk (l : Str) : Bool :=
  (splitOnC '.' l).all labelOk

/-- `ValidatedHost` as returned by `validateHost`. -/
structure ValidatedHost where
  normalizedHost : Str
  etldPlusOne : Str
deriving Repr, DecidableEq

/-- The normalization pipeline of `validateHost` up to and including the
path/query/fragment strip (the code's final `normalizedHost`
before the port strip). -/
def normalizeHost (l : Str) : Str :=
  ((((stripScheme (dropTrailingDots (trimC (lowerC l)))).takeWhile
    (· ≠ '/')).takeWhile (· ≠ '?')).takeWhile (· ≠ '#'))

/-- `normalizedHost.split(':')[0]`. -/
def hostPortStripped (l : Str) : Str :=
  (normalizeHost l).takeWhile (· ≠ ':')

/-- `HostValidatorService.validateHost`, parameterized by the public
suffix rule list. -/
def validateHost (rules : List (List Str)) (host : Str) :
    Except HostError ValidatedHost :=
  if host.isEmpty then .error .required
  else
    let hostWithoutPort := hostPortStripped host
    if isIP hostWithoutPort then .error .ipNotAllowed
    else if bracketTest hostWithoutPort then .error .bracketedIPv6NotAllowed
    else if dangerousPatterns.any (fun p => p hostWithoutPort) then
      .error .dangerousHost
    else if ¬hostnameFormatOk hostWithoutPort then .error .invalidFormat
    else
      let parts := splitOnC '.' hostWithoutPort
      if blockedTlds.contains (parts.getLastD []) then .error .blockedTld
      else
        let parsed := pslParse rules hostWithoutPort
        match parsed.domain with
        | none => .error .noDomain
        | some d =>
            if ¬parsed.listed then .error .notListed
            else .ok ⟨hostWithoutPort, d⟩

/-! ## SsrfGuardService (`ssrf-guard.service.ts`) -/

/-- `ToUint32` (the `>>> 0` coercion): Euclidean remainder mod 2^32. -/
def toUint32 (n : Int) : Nat := (n % 4294967296).toNat

/-- `ToInt32`: the signed 32-bit value congruent to `n` mod 2^32. -/
def toInt32 (n : Int) : Int :=
  let u := toUint32 n
  if u < 2147483648 then (u : Int) else (u : Int) - 4294967296

/-- `SsrfGuardService.ipToNumber`:
`(parts[0] << 24) + (parts[1] << 16) + (parts[2] << 8) + parts[3] >>> 0`,
with `<<` the JS 32-bit signed shift (a wrapping multiplication by a
power of two) and `>>> 0` the final unsigned coercion.  `Number` applied
to a dotted-quad component is its decimal value. -/
def ipToNumber (ip : Str) : Nat :=
  let parts := (splitOnC '.' ip).map natOfDigits
  let p : Nat → Int := fun i => ((parts.getD i 0 : Nat) : Int)
  toUint32 (toInt32 (p 0 * 16777216) + toInt32 (p 1 * 65536) +
    toInt32 (p 2 * 256) + p 3)

/-- `BLOCKED_IP_RANGES` from `ssrf-guard.service.ts`, in source order. -/
def BLOCKED_IP_RANGES : List (Nat × Nat) :=
  [(ipToNumber (str "0.0.0.0"), ipToNumber (str "0.255.255.255")),
   (ipToNumber (str "10.0.0.0"), ipToNumber (str "10.255.255.255")),
   (ipToNumber (str "100.64.0.0"), ipToNumber (str "100.127.255.255")),
   (ipToNumber (str "127.0.0.0"), ipToNumber (str "127.255.255.255")),
   (ipToNumber (str "169.254.0.0"), ipToNumber (str "169.254.255.255")),
   (ipToNumber (str "172.16.0.0"), ipToNumber (str "172.31.255.255")),
   (ipToNumber (str "192.0.0.0"), ipToNumber (str "192.0.0.255")),
   (ipToNumber (str "192.0.2.0"), ipToNumber (str "192.0.2.255")),
   (ipToNumber (str "192.168.0.0"), ipToNumber (str "192.168.255.255")),
   (ipToNumber (str "198.18.0.0"), ipToNumber (str "198.19.255.255")),
   (ipToNumber (str "198.51.100.0"), ipToNumber (str "198.51.100.255")),
   (ipToNumber (str "203.0.113.0"), ipToNumber (str "203.0.113.255")),
   (ipToNumber (str "224.0.0.0"), ipToNumber (str "239.255.255.255")),
   (ipToNumber (str "240.0.0.0"), ipToNumber (str "255.255.255.255"))]

/-- `SsrfGuardService.isPrivateIPv4`. -/
def isPrivateIPv4 (ip : Str) : Bool :=
  let ipNum := ipToNumber ip
  BLOCKED_IP_RANGES.any (fun range => range.1 ≤ ipNum ∧ ipNum ≤ range.2)

/-- `SsrfGuardService.isPrivateIPv6`: textual checks on the lowercased
address, exactly the eight tests of the source. -/
def isPrivateIPv6 (ip : Str) : Bool :=
  let normalized := lowerC ip
  normalized = str "::1" ∨
    (str "fe80:").isPrefixOf normalized ∨
    (str "fc").isPrefixOf normalized ∨
    (str "fd").isPrefixOf normalized ∨
    (str "::ffff:127.").isPrefixOf normalized ∨
    (str "::ffff:10.").isPrefixOf normalized ∨
    (str "::ffff:172.").isPrefixOf normalized ∨
    (str "::ffff:192.168.").isPrefixOf normalized

/-- Outcome of the two DNS resolutions (`dns.resolve4` / `dns.resolve6`),
supplied as an oracle: either a resolver failure (NXDOMAIN, timeout, …)
or the list of resolved addresses. -/
structure DnsOutcome where
  v4 : Except Unit (List Str)
  v6 : Except Unit (List Str)

/-- The rejections of `validateDnsResolution`. -/
inductive SsrfError where
  | hostError (e : HostError)
  | privateNetworkTarget
  | unresolvableHost
deriving Repr, DecidableEq

/-- The `for` loop over resolved IPv4 addresses: throw on the first
private address, otherwise collect. -/
def collectPublicV4 : List Str → Except SsrfError (List Str)
  | [] => .ok []
  | ip :: rest =>
      if isPrivateIPv4 ip then .error .privateNetworkTarget
      else
        match collectPublicV4 rest with
        | .error e => .error e
        | .ok tail => .ok (ip :: tail)

/-- The `for` loop over resolved IPv6 addresses. -/
def collectPublicV6 : List Str → Except SsrfError (List Str)
  | [] => .ok []
  | ip :: rest =>
      if isPrivateIPv6 ip then .error .privateNetworkTarget
      else
        match collectPublicV6 rest with
        | .error e => .error e
        | .ok tail => .ok (ip :: tail)

/-- `SsrfGuardService.validateDnsResolution(hostname)`: validate the
hostname, then check both address families; a resolver failure of one
family is swallowed (empty list), a private address aborts with the
private-network rejection, and an empty overall result is
`unresolvableHost`. -/
def validateDnsResolution (rules : List (List Str)) (hostname : Str)
    (dns : DnsOutcome) : Except SsrfError (List Str × List Str) :=
  match validateHost rules hostname with
  | .error e => .error (.hostError e)
  | .ok _ =>
      match (match dns.v4 with
             | .error _ => (.ok [] : Except SsrfError (List Str))
             | .ok addrs => collectPublicV4 addrs) with
      | .error e => .error e
      | .ok ipv4Addresses =>
          match (match dns.v6 with
                 | .error _ => (.ok [] : Except SsrfError (List Str))
                 | .ok addrs => collectPublicV6 addrs) with
          | .error e => .error e
          | .ok ipv6Addresses =>
              if ipv4Addresses.isEmpty ∧ ipv6Addresses.isEmpty then
                .error .unresolvableHost
              else .ok (ipv4Addresses, ipv6Addresses)

/-! ## A small backtracking regex engine

`RedactionService.redactText` and `ToolExecutor.redactOutput` apply JS
regexes with `String.prototype.replace` under the `g` flag.  The engine
below gives the standard backtracking semantics of those regexes
(ordered alternation, greedy/lazy quantifiers, capture groups,
single-character-class lookarounds, which is all the source patterns
use).  `left` is the reversed already-consumed input, so lookbehinds see
the original string.  `fuel` bounds backtracking depth; it is chosen far
beyond what the finite patterns can consume.  None of the source
patterns can match the empty string, and none of their quantified bodies
can match empty, so quantifier semantics agree with JS. -/

/-- Regex abstract syntax.  `rep lo hi lazy r` is `r{lo,hi}` (`hi = none`
for an unbounded quantifier); `nextOk p` is `(?=c|$)` for a class test
`p`; `prevOk p` is `(?<=c|^)`. -/
inductive RE where
  | eps
  | cls (p : Char → Bool)
  | seq (a b : RE)
  | alt (a b : RE)
  | rep (lo : Nat) (hi : Option Nat) (lazy : Bool) (r : RE)
  | group (idx : Nat) (r : RE)
  | nextOk (p : Char → Bool)
  | prevOk (p : Char → Bool)

/-- Captures: group index paired with matched text, most recent first. -/
abbrev Caps := List (Nat × Str)

/-- Backtracking matcher in continuation-passing style.  The
continuation receives the new reversed-left context, the rest of the
input, and the captures. -/
def reMatch : Nat → RE → Str → Str → Caps →
    (Str → Str → Caps → Option (Str × Caps)) → Option (Str × Caps)
  | 0, _, _, _, _, _ => none
  | _ + 1, .eps, left, s, caps, k => k left s caps
  | _ + 1, .cls p, left, s, caps, k =>
      match s with
      | [] => none
      | c :: rest => if p c then k (c :: left) rest caps else none
  | fuel + 1, .seq a b, left, s, caps, k =>
      reMatch fuel a left s caps fun l2 s2 c2 => reMatch fuel b l2 s2 c2 k
  | fuel + 1, .alt a b, left, s, caps, k =>
      (reMatch fuel a left s caps k).orElse fun _ => reMatch fuel b left s caps k
  | fuel + 1, .rep (lo + 1) hi lz r, left, s, caps, k =>
      reMatch fuel r left s caps fun l2 s2 c2 =>
        reMatch fuel (.rep lo (hi.map (· - 1)) lz r) l2 s2 c2 k
  | fuel + 1, .rep 0 hi lz r, left, s, caps, k =>
      if hi = some 0 then k left s caps
      else if lz then
        (k left s caps).orElse fun _ =>
          reMatch fuel r left s caps fun l2 s2 c2 =>
            reMatch fuel (.rep 0 (hi.map (· - 1)) lz r) l2 s2 c2 k
      else
        (reMatch fuel r left s caps fun l2 s2 c2 =>
          reMatch fuel (.rep 0 (hi.map (· - 1)) lz r) l2 s2 c2 k).orElse
          fun _ => k left s caps
  | fuel + 1, .group i r, left, s, caps, k =>
      reMatch fuel r left s caps fun l2 s2 c2 =>
        k l2 s2 ((i, s.take (s.length - s2.length)) :: c2)
  | _ + 1, .nextOk p, left, s, caps, k =>
      if (match s with | [] => true | c :: _ => p c) then k left s caps else none
  | _ + 1, .prevOk p, left, s, caps, k =>
      if (match left with | [] => true | c :: _ => p c) then k left s caps
      else none

/-- Leftmost match search: try the pattern at each successive start
position.  Returns the text before the match, the matched text, the rest
and the captures. -/
def reSearch (fuel : Nat) (r : RE) : Str → Str →
    Option (Str × Str × Str × Caps)
  | left, s =>
      match reMatch fuel r left s [] (fun _ s2 c2 => some (s2, c2)) with
      | some (rest, caps) =>
          some ([], s.take (s.length - rest.length), rest, caps)
      | none =>
          match s with
          | [] => none
          | c :: s' =>
              match reSearch fuel r (c :: left) s' with
              | some (pre, m, rest, caps) => some (c :: pre, m, rest, caps)
              | none => none

/-- One piece of a replacement string: literal text or `$i`. -/
inductive Tmpl where
  | lit (t : Str)
  | ref (i : Nat)

/-- Build the replacement text (an unmatched group substitutes empty,
as in JS). -/
def applyTmpl (caps : Caps) (tmpl : List Tmpl) : Str :=
  tmpl.foldr
    (fun piece acc =>
      match piece with
      | .lit t => t ++ acc
      | .ref i => ((caps.lookup i).getD []) ++ acc)
    []

/-- `String.prototype.replace` with a `g`-flagged regex: repeatedly find
the leftmost match after the previous one and splice in the replacement
(an empty match advances one character, as `lastIndex++` does).  Also
counts the matches, which is what `.match(pattern).length` returns. -/
def reReplaceAll (fuel : Nat) (r : RE) (tmpl : List Tmpl) :
    Nat → Str → Str → Str × Nat
  | 0, _, s => (s, 0)
  | n + 1, left, s =>
      match reSearch fuel r left s with
      | none => (s, 0)
      | some (pre, m, rest, caps) =>
          if m.isEmpty then
            match rest with
            | [] => (pre ++ applyTmpl caps tmpl, 1)
            | c :: rest' =>
                let tail :=
                  reReplaceAll fuel r tmpl n (c :: (pre.reverse ++ left)) rest'
                (pre ++ applyTmpl caps tmpl ++ c :: tail.1, tail.2 + 1)
          else
            let tail :=
              reReplaceAll fuel r tmpl n (m.reverse ++ pre.reverse ++ left) rest
            (pre ++ applyTmpl caps tmpl ++ tail.1, tail.2 + 1)

/-- Engine fuel comfortably beyond any backtracking path of the source
patterns on the given input. -/
def reFuel (s : Str) : Nat := 200 * (s.length + 60)

/-- Apply one pattern → replacement rule globally, returning the new
text and the match count. -/
def redactPattern (r : RE) (tmpl : List Tmpl) (s : Str) : Str × Nat :=
  reReplaceAll (reFuel s) r tmpl (s.length + 1) [] s

/-- `c` exactly. -/
def chrR (c : Char) : RE := .cls fun x => x = c

/-- Case-sensitive literal. -/
def strR (cs : Str) : RE := cs.foldr (fun c acc => .seq (chrR c) acc) .eps

/-- Case-insensitive literal (the `i` flag on the letters of the
pattern). -/
def istrR (cs : Str) : RE :=
  cs.foldr (fun c acc => .seq (.cls fun x => x.toLower = c.toLower) acc) .eps

/-- `X*` (greedy). -/
def starR (r : RE) : RE := .rep 0 none false r

/-- `X+` (greedy). -/
def plusR (r : RE) : RE := .rep 1 none false r

/-- `X{n,}` (greedy). -/
def atLeastR (n : Nat) (r : RE) : RE := .rep n none false r

/-- `X?` (greedy). -/
def optR (r : RE) : RE := .rep 0 (some 1) false r

/-! ## `RedactionService.REDACTION_PATTERNS` (`redaction.service.ts`)

Each JS regex of the source list, as an `RE` term, in source order. -/

/-- `[a-zA-Z0-9._%+-]` (email local part). -/
def emailLocalC (c : Char) : Bool :=
  c.isAlphanum || c = '.' || c = '_' || c = '%' || c = '+' || c = '-'

/-- `[a-zA-Z0-9.-]` (email domain part). -/
def emailDomC (c : Char) : Bool := c.isAlphanum || c = '.' || c = '-'

/-- `[a-zA-Z]`. -/
def alphaC (c : Char) : Bool := c.isAlpha

/-- `[a-zA-Z0-9_-]`. -/
def b64urlC (c : Char) : Bool := c.isAlphanum || c = '_' || c = '-'

/-- `[a-zA-Z0-9+/=_-]`. -/
def authC (c : Char) : Bool :=
  c.isAlphanum || c = '+' || c = '/' || c = '=' || c = '_' || c = '-'

/-- `[a-zA-Z0-9+/=_%-]`. -/
def setCookieC (c : Char) : Bool :=
  c.isAlphanum || c = '+' || c = '/' || c = '=' || c = '_' || c = '%' || c = '-'

/-- `[a-zA-Z0-9+/]`. -/
def awsSecretC (c : Char) : Bool := c.isAlphanum || c = '+' || c = '/'

/-- `[a-zA-Z0-9+/=]` (the AWS-secret boundary class, unnegated). -/
def awsBoundC (c : Char) : Bool := awsSecretC c || c = '='

/-- `/[a-zA-Z0-9._%+-]+@[a-zA-Z0-9.-]+\.[a-zA-Z]{2,}/g` -/
def emailRE : RE :=
  .seq (plusR (.cls emailLocalC)) (.seq (chrR '@')
    (.seq (plusR (.cls emailDomC)) (.seq (chrR '.') (atLeastR 2 (.cls alphaC)))))

/-- `/eyJ[a-zA-Z0-9_-]*\.eyJ[a-zA-Z0-9_-]*\.[a-zA-Z0-9_-]*/g` -/
def jwtRE : RE :=
  .seq (strR (str "eyJ")) (.seq (starR (.cls b64urlC)) (.seq (chrR '.')
    (.seq (strR (str "eyJ")) (.seq (starR (.cls b64urlC)) (.seq (chrR '.')
      (starR (.cls b64urlC)))))))

/-- `/Bearer\s+[a-zA-Z0-9_-]{20,}/gi` -/
def bearerRE : RE :=
  .seq (istrR (str "Bearer")) (.seq (plusR (.cls isJsSpace))
    (atLeastR 20 (.cls b64urlC)))

/-- `/(Authorization:\s*)(Basic\s+)?[a-zA-Z0-9+/=_-]{20,}/gi` -/
def authHeaderRE : RE :=
  .seq (.group 1 (.seq (istrR (str "Authorization:")) (starR (.cls isJsSpace))))
    (.seq (optR (.group 2 (.seq (istrR (str "Basic")) (plusR (.cls isJsSpace)))))
      (atLeastR 20 (.cls authC)))

/-- `/(Cookie:\s*[^;\n]*=)[a-zA-Z0-9+/=_-]{16,}/gi` -/
def cookieRE : RE :=
  .seq (.group 1 (.seq (istrR (str "Cookie:")) (.seq (starR (.cls isJsSpace))
    (.seq (starR (.cls fun c => !(c = ';' || c = '\n'))) (chrR '=')))))
    (atLeastR 16 (.cls authC))

/-- `/(Set-Cookie:\s*[^=]+=)[a-zA-Z0-9+/=_%-]{16,}/gi` -/
def setCookieRE : RE :=
  .seq (.group 1 (.seq (istrR (str "Set-Cookie:")) (.seq (starR (.cls isJsSpace))
    (.seq (plusR (.cls fun c => !(c = '='))) (chrR '=')))))
    (atLeastR 16 (.cls setCookieC))

/-- `/(session[_-]?id[=:]?\s*)[a-zA-Z0-9+/=_-]{16,}/gi` -/
def sessionRE : RE :=
  .seq (.group 1 (.seq (istrR (str "session"))
    (.seq (optR (.cls fun c => c = '_' || c = '-'))
      (.seq (istrR (str "id")) (.seq (optR (.cls fun c => c = '=' || c = ':'))
        (starR (.cls isJsSpace)))))))
    (atLeastR 16 (.cls authC))

/-- `/AKIA[0-9A-Z]{16}/g` -/
def awsAccessKeyRE : RE :=
  .seq (strR (str "AKIA"))
    (.rep 16 (some 16) false (.cls fun c => c.isDigit || c.isUpper))

/-- `/(?<=[^a-zA-Z0-9+/=]|^)[a-zA-Z0-9+/]{40}(?=[^a-zA-Z0-9+/=]|$)/g` -/
def awsSecretRE : RE :=
  .seq (.prevOk fun c => !awsBoundC c)
    (.seq (.rep 40 (some 40) false (.cls awsSecretC))
      (.nextOk fun c => !awsBoundC c))

/-- `/(api[_-]?key[=:]\s*)[a-zA-Z0-9_-]{20,}/gi` -/
def apiKeyRE : RE :=
  .seq (.group 1 (.seq (istrR (str "api"))
    (.seq (optR (.cls fun c => c = '_' || c = '-'))
      (.seq (istrR (str "key")) (.seq (.cls fun c => c = '=' || c = ':')
        (starR (.cls isJsSpace)))))))
    (atLeastR 20 (.cls b64urlC))

/-- `/(X-API-Key:\s*)[a-zA-Z0-9_-]{16,}/gi` -/
def xApiKeyRE : RE :=
  .seq (.group 1 (.seq (istrR (str "X-API-Key:")) (starR (.cls isJsSpace))))
    (atLeastR 16 (.cls b64urlC))

/-- `/-----BEGIN\s+(RSA\s+)?PRIVATE KEY-----[\s\S]*?-----END\s+(RSA\s+)?PRIVATE KEY-----/g` -/
def privateKeyRE : RE :=
  .seq (strR (str "-----BEGIN")) (.seq (plusR (.cls isJsSpace))
    (.seq (optR (.group 1 (.seq (strR (str "RSA")) (plusR (.cls isJsSpace)))))
      (.seq (strR (str "PRIVATE KEY-----"))
        (.seq (.rep 0 none true (.cls fun _ => true))
          (.seq (strR (str "-----END")) (.seq (plusR (.cls isJsSpace))
    (.seq (optR (.group 2 (.seq (strR (str "RSA")) (plusR (.cls isJsSpace)))))
      (strR (str "PRIVATE KEY-----")))))))))

/-- `/("password"\s*:\s*")[^"]+(")/gi` -/
def passwordJsonRE : RE :=
  .seq (.group 1 (.seq (istrR (str "\"password\"")) (.seq (starR (.cls isJsSpace))
    (.seq (chrR ':') (.seq (starR (.cls isJsSpace)) (chrR '"'))))))
    (.seq (plusR (.cls fun c => !(c = '"'))) (.group 2 (chrR '"')))

/-- `/(:\/\/[^:]+:)[^@]+(@)/g` -/
def passwordUrlRE : RE :=
  .seq (.group 1 (.seq (strR (str "://"))
    (.seq (plusR (.cls fun c => !(c = ':'))) (chrR ':'))))
    (.seq (plusR (.cls fun c => !(c = '@'))) (.group 2 (chrR '@')))

/-- `/gh[pousr]_[a-zA-Z0-9]{36,}/g` -/
def githubTokenRE : RE :=
  .seq (strR (str "gh"))
    (.seq (.cls fun c => c = 'p' || c = 'o' || c = 'u' || c = 's' || c = 'r')
      (.seq (chrR '_') (atLeastR 36 (.cls Char.isAlphanum))))

/-- `/xox[baprs]-[a-zA-Z0-9-]+/g` -/
def slackTokenRE : RE :=
  .seq (strR (str "xox"))
    (.seq (.cls fun c => c = 'b' || c = 'a' || c = 'p' || c = 'r' || c = 's')
      (.seq (chrR '-') (plusR (.cls fun c => c.isAlphanum || c = '-'))))

/-- `/(sk|pk)_(live|test)_[a-zA-Z0-9]{24,}/g` -/
def stripeKeyRE : RE :=
  .seq (.group 1 (.alt (strR (str "sk")) (strR (str "pk"))))
    (.seq (chrR '_')
      (.seq (.group 2 (.alt (strR (str "live")) (strR (str "test"))))
        (.seq (chrR '_') (atLeastR 24 (.cls Char.isAlphanum)))))

/-- `/(?<=[^a-fA-F0-9]|^)[a-fA-F0-9]{32,}(?=[^a-fA-F0-9]|$)/g` -/
def hexSecretRE : RE :=
  .seq (.prevOk fun c => !isHexC c)
    (.seq (atLeastR 32 (.cls isHexC)) (.nextOk fun c => !isHexC c))

/-- `/\+?[1-9]\d{1,14}(?=\s|$|[^\d])/g` -/
def phoneRE : RE :=
  .seq (optR (chrR '+'))
    (.seq (.cls fun c => '1' ≤ c ∧ c ≤ '9')
      (.seq (.rep 1 (some 14) false (.cls Char.isDigit))
        (.nextOk fun c => isJsSpace c || !c.isDigit)))

/-- `REDACTION_PATTERNS`, in source order, with their replacement
templates. -/
def REDACTION_PATTERNS : List (RE × List Tmpl) :=
  [(emailRE, [.lit (str "[REDACTED_EMAIL]")]),
   (jwtRE, [.lit (str "[REDACTED_JWT]")]),
   (bearerRE, [.lit (str "Bearer [REDACTED_TOKEN]")]),
   (authHeaderRE, [.ref 1, .lit (str "[REDACTED_AUTH]")]),
   (cookieRE, [.ref 1, .lit (str "[REDACTED_COOKIE]")]),
   (setCookieRE, [.ref 1, .lit (str "[REDACTED_COOKIE]")]),
   (sessionRE, [.ref 1, .lit (str "[REDACTED_SESSION]")]),
   (awsAccessKeyRE, [.lit (str "[REDACTED_AWS_KEY]")]),
   (awsSecretRE, [.lit (str "[REDACTED_AWS_SECRET]")]),
   (apiKeyRE, [.ref 1, .lit (str "[REDACTED_API_KEY]")]),
   (xApiKeyRE, [.ref 1, .lit (str "[REDACTED_API_KEY]")]),
   (privateKeyRE, [.lit (str "[REDACTED_PRIVATE_KEY]")]),
   (passwordJsonRE, [.ref 1, .lit (str "[REDACTED_PASSWORD]"), .ref 2]),
   (passwordUrlRE, [.ref 1, .lit (str "[REDACTED]"), .ref 2]),
   (githubTokenRE, [.lit (str "[REDACTED_GITHUB_TOKEN]")]),
   (slackTokenRE, [.lit (str "[REDACTED_SLACK_TOKEN]")]),
   (stripeKeyRE, [.lit (str "[REDACTED_STRIPE_KEY]")]),
   (hexSecretRE, [.lit (str "[REDACTED_HEX]")]),
   (phoneRE, [.lit (str "[REDACTED_PHONE]")])]

/-- `RedactionService.redactText`: empty input short-circuits; otherwise
every pattern is globally replaced in order, summing the match counts. -/
def redactText (content : Str) : Str × Nat :=
  if content.isEmpty then ([], 0)
  else
    REDACTION_PATTERNS.foldl
      (fun acc pr =>
        let step := redactPattern pr.1 pr.2 acc.1
        (step.1, acc.2 + step.2))
      (content, 0)

/-- `ToolExecutor.redactOutput` (`executor.ts` lines 610-617): the
worker-side redaction chain of four replaces (emails, JWTs, AWS access
keys, private-key blocks). -/
def redactOutput (output : Str) : Str :=
  (redactPattern privateKeyRE [.lit (str "[REDACTED_PRIVATE_KEY]")]
    (redactPattern awsAccessKeyRE [.lit (str "[REDACTED_AWS_KEY]")]
      (redactPattern jwtRE [.lit (str "[REDACTED_JWT]")]
        (redactPattern emailRE [.lit (str "[REDACTED_EMAIL]")] output).1).1).1).1
/-! ## Tool executor and worker job processor
(`packages/worker/src/tools/executor.ts`, `packages/worker/src/index.ts`)

The probes' outbound operations are supplied as oracles.  `TLS_CHECK`
and `DNS_LOOKUP` (the probes the claims evaluate) are embedded fully;
their side effects (uploads, status updates, rate-limiter calls) are
recorded as an event trace. -/

/-- A JS `Error`, identified by its message (all the worker inspects). -/
structure JsError where
  message : Str
deriving Repr, DecidableEq

/-- Outcome of one outbound operation raced by
`RateLimiter.withTimeout`: the operation settles first (with a value or
an error), or the timer fires. -/
inductive OpOutcome (α : Type) where
  | completed (v : α)
  | failed (e : JsError)
  | timedOut

/-- The message of `RateLimiter.createTimeout`. -/
def timeoutMessage (timeoutMs : Nat) : Str :=
  str "Tool execution timed out after " ++ str (toString timeoutMs) ++ str "ms"

/-- The message of the `waitForRequestSlot` budget error. -/
def budgetMessage (maxRequestsPerRun : Nat) : Str :=
  str "Maximum request limit (" ++ str (toString maxRequestsPerRun) ++
    str ") reached. This limit exists to prevent overwhelming target systems."

/-- `RateLimiter.withTimeout`: `Promise.race` of the operation against
`createTimeout()`. -/
def withTimeout {α : Type} (timeoutMs : Nat) : OpOutcome α → Except JsError α
  | .completed v => .ok v
  | .failed e => .error e
  | .timedOut => .error ⟨timeoutMessage timeoutMs⟩

/-- `String.prototype.includes`. -/
def jsIncludes (hay needle : Str) : Bool :=
  if needle.isPrefixOf hay then true
  else
    match hay with
    | [] => false
    | _ :: t => jsIncludes t needle

/-- Observable side effects of the enqueue/execute pipeline. -/
inductive Event where
  | validateTarget (target : Str)
  | statusUpdate (s : ToolRunStatus)
  | upload (text : Str) (kind : Str)
  | acquireSlot
  | releaseSlot
  | outboundRequest
deriving Repr, DecidableEq

/-- `ExecutionResult` from `executor.ts` (the fields the worker uses). -/
structure ExecutionResult where
  success : Bool
  summary : Str
  stdoutRef : Option Str
  exitCode : Int
  requestCount : Nat
deriving Repr, DecidableEq

/-- `StorageClient.uploadToolOutput` returns the object key
`assessmentId/toolRunId/type.txt`. -/
def uploadKey (assessmentId toolRunId ty : Str) : Str :=
  assessmentId ++ '/' :: toolRunId ++ '/' :: ty ++ str ".txt"

/-- `ToolExecutor.parseTlsSummary`. -/
def parseTlsSummary (output : Str) : Str :=
  let lines := splitOnC '\n' output
  let issuer := ((lines.find? fun l => jsIncludes l (str "Issuer:")).map
    trimC).getD (str "Unknown issuer")
  let subject := ((lines.find? fun l => jsIncludes l (str "Subject:")).map
    trimC).getD (str "Unknown subject")
  let notAfter := ((lines.find? fun l => jsIncludes l (str "Not After")).map
    trimC).getD []
  (subject ++ str ". " ++ issuer ++ str ". " ++ notAfter).take 500

/-- `ToolExecutor.executeTlsCheck`, with the `exec` of the openssl
command supplied as an oracle.  The request-slot call sits before the
`try`, so a budget error propagates; every error inside the `try`
(including a timeout of the race) is caught and converted into a
`success: false` result. -/
def executeTlsCheck (cfg : RateLimiterConfig) (rl : RateLimiterState)
    (now : Nat) (assessmentId toolRunId : Str) (runId : String)
    (execOut : OpOutcome (Str × Str)) :
    Except JsError ExecutionResult × RateLimiterState × List Event :=
  match waitForRequestSlot cfg rl runId now with
  | (.error .requestBudgetExceeded, rl') =>
      (.error ⟨budgetMessage cfg.maxRequestsPerRun⟩, rl', [])
  | (.ok _, rl') =>
      match withTimeout cfg.timeoutMs execOut with
      | .ok (stdout, stderr) =>
          let output := stdout ++
            (if stderr.isEmpty then [] else str "\n\nSTDERR:\n" ++ stderr)
          let redacted := redactOutput output
          let stdoutRef := uploadKey assessmentId toolRunId (str "stdout")
          (.ok ⟨true, parseTlsSummary output, some stdoutRef, 0, 1⟩, rl',
            [.outboundRequest, .upload redacted (str "stdout")])
      | .error e =>
          (.ok ⟨false, str "TLS check failed: " ++ e.message, none, 1, 1⟩,
            rl', [.outboundRequest])

/-- `recordTypes` from `executeDnsLookup`. -/
def recordTypes : List Str :=
  [str "A", str "AAAA", str "CNAME", str "MX", str "TXT", str "NS"]

/-- `JSON.stringify(obj, null, 2)` for a string-keyed record of string
arrays (the shape of the DNS results; the modelled values contain no
characters needing escapes). -/
def jsonStringifyDnsResults (results : List (Str × List Str)) : Str :=
  match results with
  | [] => str "\x7b\x7d"
  | _ =>
      str "\x7b\n" ++
        List.intercalate (str ",\n")
          (results.map fun kv =>
            str "  \"" ++ kv.1 ++ str "\": [\n" ++
              List.intercalate (str ",\n")
                (kv.2.map fun v => str "    \"" ++ v ++ str "\"") ++
              str "\n  ]") ++
        str "\n\x7d"

/-- The `for (const type of recordTypes)` loop of `executeDnsLookup`:
request slot (budget errors propagate), race `dig` against the timeout,
absorb per-type failures, keep nonempty record sets. -/
def dnsLoop (cfg : RateLimiterConfig) (now : Nat) (runId : String)
    (digOut : Str → OpOutcome Str) :
    List Str → RateLimiterState →
    (Except JsError (List (Str × List Str))) × RateLimiterState × List Event
  | [], rl => (.ok [], rl, [])
  | ty :: rest, rl =>
      match waitForRequestSlot cfg rl runId now with
      | (.error .requestBudgetExceeded, rl') =>
          (.error ⟨budgetMessage cfg.maxRequestsPerRun⟩, rl', [])
      | (.ok _, rl') =>
          match withTimeout cfg.timeoutMs (digOut ty) with
          | .error _ =>
              let tail := dnsLoop cfg now runId digOut rest rl'
              (tail.1, tail.2.1, .outboundRequest :: tail.2.2)
          | .ok stdout =>
              let records :=
                (splitOnC '\n' (trimC stdout)).filter fun r => !r.isEmpty
              let tail := dnsLoop cfg now runId digOut rest rl'
              match tail.1 with
              | .error e => (.error e, tail.2.1, .outboundRequest :: tail.2.2)
              | .ok restResults =>
                  (.ok (if records.isEmpty then restResults
                        else (ty, records) :: restResults),
                    tail.2.1, .outboundRequest :: tail.2.2)

/-- `ToolExecutor.executeDnsLookup`: run the loop, serialize the results
and upload them — without any redaction. -/
def executeDnsLookup (cfg : RateLimiterConfig) (rl : RateLimiterState)
    (now : Nat) (assessmentId toolRunId : Str) (runId : String)
    (digOut : Str → OpOutcome Str) :
    Except JsError ExecutionResult × RateLimiterState × List Event :=
  match dnsLoop cfg now runId digOut recordTypes rl with
  | (.error e, rl', evs) => (.error e, rl', evs)
  | (.ok results, rl', evs) =>
      let output := jsonStringifyDnsResults results
      let stdoutRef := uploadKey assessmentId toolRunId (str "stdout")
      let totalRecords := (results.map fun kv => kv.2.length).sum
      (.ok ⟨true,
          str "DNS lookup complete. Found " ++ str (toString totalRecords) ++
            str " records across " ++ str (toString results.length) ++
            str " types.",
          some stdoutRef, 0, recordTypes.length⟩,
        rl', evs ++ [.upload output (str "stdout")])

/-- A job for one of the embedded probes, carrying the probe's oracles. -/
inductive ProbeJob where
  | tls (execOut : OpOutcome (Str × Str))
  | dns (digOut : Str → OpOutcome Str)

/-- `ToolExecutor.execute` for the embedded probes: reset the per-run
rate state, then dispatch. -/
def executeTool (cfg : RateLimiterConfig) (rl : RateLimiterState)
    (now : Nat) (assessmentId toolRunId : Str) (runId : String) :
    ProbeJob →
    Except JsError ExecutionResult × RateLimiterState × List Event
  | .tls execOut =>
      executeTlsCheck cfg (resetRunState rl runId) now assessmentId toolRunId
        runId execOut
  | .dns digOut =>
      executeDnsLookup cfg (resetRunState rl runId) now assessmentId toolRunId
        runId digOut

/-- The worker job processor (`index.ts` lines 48-121): acquire an
execution slot, mark the run RUNNING, execute, then persist COMPLETED on
a normal return, or — in the catch — TIMEOUT when the error message
contains the substring `timeout` and FAILED otherwise; the slot is
released in the `finally`.  The returned status is the run's persisted
terminal status. -/
def workerProcess (cfg : RateLimiterConfig) (rl : RateLimiterState)
    (now : Nat) (assessmentId toolRunId : Str) (runId : String)
    (job : ProbeJob) : ToolRunStatus × List Event :=
  let step := executeTool cfg rl now assessmentId toolRunId runId job
  match step.1 with
  | .ok _ =>
      (.completed,
        .acquireSlot :: .statusUpdate .running :: step.2.2 ++
          [.statusUpdate .completed, .releaseSlot])
  | .error e =>
      let isTimeout := jsIncludes e.message (str "timeout")
      let finalStatus := if isTimeout then ToolRunStatus.timeout
        else ToolRunStatus.failed
      (finalStatus,
        .acquireSlot :: .statusUpdate .running :: step.2.2 ++
          [.statusUpdate finalStatus, .releaseSlot])

/-- The observable effects of `ToolRunsService.enqueue` relevant to run
lifecycle: scope/SSRF validation of the target (step 3), then creation
of the run in status QUEUED (step 7).  This is the only place the
pipeline validates the target. -/
def enqueueEvents (target : Str) : List Event :=
  [.validateTarget target, .statusUpdate .queued]


end Calo

namespace Calo

/-! ## Theorems: C5, C10, C9 -/

theorem requestCount_lookup_setRun_self (m : List (String × RunState))
    (runId : String) (s : RunState) :
    lookupRun (setRun m runId s) runId = some s := by
  induction m with
  | nil => simp [setRun, lookupRun]
  | cons kv rest ih =>
      obtain ⟨k, v⟩ := kv
      by_cases h : k = runId
      · simp [setRun, lookupRun, h]
      · simp [setRun, lookupRun, h, ih]

theorem lookup_setRun_ne (m : List (String × RunState)) (rid runId : String)
    (s : RunState) (hr : rid ≠ runId) :
    lookupRun (setRun m rid s) runId = lookupRun m runId := by
  induction m with
  | nil => simp [setRun, lookupRun, hr]
  | cons kv rest ih =>
      obtain ⟨k, v⟩ := kv
      by_cases hk : k = rid
      · subst hk; simp [setRun, lookupRun, hr]
      · by_cases hk2 : k = runId
        · subst hk2; simp [setRun, lookupRun, hk]
        · simp [setRun, lookupRun, hk, hk2, ih]

/-- After any single limiter call, a run's recorded request count stays
within the budget if it was within it before. -/
theorem requestCount_le_applyRLOp (cfg : RateLimiterConfig)
    (st : RateLimiterState) (op : RLOp) (runId : String)
    (h : requestCountOf st runId ≤ cfg.maxRequestsPerRun) :
    requestCountOf (applyRLOp cfg st op) runId ≤ cfg.maxRequestsPerRun := by
  cases op with
  | waitExec => exact h
  | releaseExec => exact h
  | reset rid =>
      unfold applyRLOp resetRunState requestCountOf
      by_cases hr : rid = runId
      · subst hr; simp [requestCount_lookup_setRun_self]
      · simpa [lookup_setRun_ne _ _ _ _ hr] using h
  | request rid now =>
      unfold applyRLOp waitForRequestSlot
      by_cases hfull :
          ((lookupRun st.runStates rid).getD ⟨0, 0⟩).requestCount ≥
            cfg.maxRequestsPerRun
      · -- budget branch: the only change is possibly inserting ⟨0,0⟩
        by_cases hs : (lookupRun st.runStates rid).isSome
        · simpa [hfull, hs] using h
        · simp only [hfull, hs, ge_iff_le, if_pos, Bool.false_eq_true, if_false]
          by_cases hr : rid = runId
          · subst hr
            unfold requestCountOf
            simp [requestCount_lookup_setRun_self]
          · unfold requestCountOf at h ⊢
            simp [lookup_setRun_ne _ _ _ _ hr, h]
      · -- increment branch
        push_neg at hfull
        by_cases hr : rid = runId
        · subst hr
          unfold requestCountOf
          by_cases hs : (lookupRun st.runStates rid).isSome <;>
            simp [hfull.not_le, hs, requestCount_lookup_setRun_self] <;>
            omega
        · unfold requestCountOf at h ⊢
          by_cases hs : (lookupRun st.runStates rid).isSome <;>
            simp [hfull.not_le, hs, lookup_setRun_ne _ _ _ _ hr, h]

theorem requestCount_le_applyRLOps (cfg : RateLimiterConfig)
    (st : RateLimiterState) (ops : List RLOp) (runId : String)
    (h : requestCountOf st runId ≤ cfg.maxRequestsPerRun) :
    requestCountOf (applyRLOps cfg st ops) runId ≤ cfg.maxRequestsPerRun := by
  induction ops generalizing st with
  | nil => exact h
  | cons op ops ih =>
      exact ih _ (requestCount_le_applyRLOp cfg st op runId h)

/-- C5: starting from a fresh limiter, after any sequence of calls the
per-run request count never exceeds `maxRequestsPerRun`; and a
`waitForRequestSlot` call made when the count has reached the budget
throws the request-budget error and leaves the count unchanged. -/
theorem waitForRequestSlot_budget_invariant (cfg : RateLimiterConfig)
    (ops : List RLOp) (runId : String) :
    requestCountOf (applyRLOps cfg .init ops) runId ≤ cfg.maxRequestsPerRun ∧
    (∀ (st : RateLimiterState) (now : Nat),
      requestCountOf st runId = cfg.maxRequestsPerRun →
      (waitForRequestSlot cfg st runId now).1 = .error .requestBudgetExceeded ∧
      requestCountOf (waitForRequestSlot cfg st runId now).2 runId =
        cfg.maxRequestsPerRun) := by
  constructor
  · exact requestCount_le_applyRLOps cfg .init ops runId
      (by simp [requestCountOf, RateLimiterState.init, lookupRun])
  · intro st now hmax
    unfold waitForRequestSlot
    have hfull : ((lookupRun st.runStates runId).getD ⟨0, 0⟩).requestCount ≥
        cfg.maxRequestsPerRun := by
      unfold requestCountOf at hmax; omega
    by_cases hs : (lookupRun st.runStates runId).isSome
    · constructor <;> simp [hfull, hs, hmax]
    · have h0 : ((lookupRun st.runStates runId).getD ⟨0, 0⟩).requestCount = 0 := by
        cases hl : lookupRun st.runStates runId with
        | none => simp
        | some v => rw [hl] at hs; simp at hs
      have hcfg0 : cfg.maxRequestsPerRun = 0 := by omega
      refine ⟨by simp [hfull, hs], ?_⟩
      simp only [hfull, hs, ge_iff_le, if_pos, Bool.false_eq_true, if_false]
      unfold requestCountOf
      simp [requestCount_lookup_setRun_self, hcfg0, h0]

/-- C5 witness. -/
theorem waitForRequestSlot_budget_invariant_witness :
    requestCountOf
        (applyRLOps ⟨1000, 50, 2, 30000⟩ .init
          [.request "r1" 0, .request "r1" 5]) "r1" ≤ 50 ∧
      (waitForRequestSlot ⟨1000, 0, 2, 30000⟩ .init "r1" 0).1 =
        .error .requestBudgetExceeded := by
  refine ⟨(waitForRequestSlot_budget_invariant ⟨1000, 50, 2, 30000⟩
    [.request "r1" 0, .request "r1" 5] "r1").1, ?_⟩
  exact ((waitForRequestSlot_budget_invariant ⟨1000, 0, 2, 30000⟩ [] "r1").2
    .init 0 (by simp [requestCountOf, RateLimiterState.init, lookupRun])).1

/-- C10: the global `activeExecutions` counter never becomes negative:
from a fresh limiter, any sequence of calls (including unbalanced
`releaseExecutionSlot`s) keeps it `≥ 0`. -/
theorem activeExecutions_nonneg (cfg : RateLimiterConfig) (ops : List RLOp) :
    0 ≤ (applyRLOps cfg .init ops).activeExecutions := by
  have step : ∀ (st : RateLimiterState) (op : RLOp),
      0 ≤ st.activeExecutions →
      0 ≤ (applyRLOp cfg st op).activeExecutions := by
    intro st op h
    cases op with
    | request rid now =>
        unfold applyRLOp waitForRequestSlot
        by_cases hfull :
            ((lookupRun st.runStates rid).getD ⟨0, 0⟩).requestCount ≥
              cfg.maxRequestsPerRun <;>
          by_cases hs : (lookupRun st.runStates rid).isSome <;>
          simpa [hfull, hs] using h
    | reset rid => exact h
    | waitExec =>
        unfold applyRLOp waitForExecutionSlot
        by_cases hlt : st.activeExecutions < (cfg.maxConcurrent : Int) <;>
          simp [hlt] <;> omega
    | releaseExec =>
        unfold applyRLOp releaseExecutionSlot
        by_cases hpos : st.activeExecutions > 0 <;> simp [hpos] <;> omega
  have : ∀ (st : RateLimiterState) (ops : List RLOp),
      0 ≤ st.activeExecutions →
      0 ≤ (applyRLOps cfg st ops).activeExecutions := by
    intro st ops
    induction ops generalizing st with
    | nil => exact fun h => h
    | cons op ops ih => exact fun h => ih _ (step st op h)
  exact this _ _ (by simp [RateLimiterState.init])

/-- C9 counterexample: `TIMEOUT` is a terminal status, yet
`ToolRunsService.cancel` accepts the cancellation and overwrites the
stored status with `CANCELLED`. -/
theorem cancel_timeout_not_rejected :
    ToolRunStatus.isTerminal .timeout = true ∧
    cancelRun .timeout = .ok .cancelled ∧
    ToolRunStatus.cancelled ≠ ToolRunStatus.timeout := by
  refine ⟨rfl, ?_, by decide⟩
  simp [cancelRun]

/-- C9 (amended): `cancel` rejects exactly the `COMPLETED` and `FAILED`
statuses and leaves them stored; every other status — including the
terminal `TIMEOUT` and `CANCELLED` — is overwritten with `CANCELLED`. -/
theorem cancel_rejects_only_completed_failed (s : ToolRunStatus) :
    (s = .completed ∨ s = .failed → cancelRun s = .error .cannotCancel) ∧
    (s ≠ .completed → s ≠ .failed → cancelRun s = .ok .cancelled) := by
  constructor
  · intro h; simp [cancelRun, h]
  · intro h1 h2; simp [cancelRun, h1, h2]

/-- C9 amended witness. -/
theorem cancel_rejects_only_completed_failed_witness :
    cancelRun .completed = .error .cannotCancel ∧
    cancelRun .timeout = .ok .cancelled := by
  exact ⟨(cancel_rejects_only_completed_failed .completed).1 (Or.inl rfl),
    (cancel_rejects_only_completed_failed .timeout).2 (by decide) (by decide)⟩

end Calo

namespace Calo

/-! ## Character and list toolkit for the `validateHost` proofs -/

theorem char_le_iff (a b : Char) : a ≤ b ↔ a.toNat ≤ b.toNat := by
  rw [Char.le_def, UInt32.le_def, BitVec.le_def]; rfl

theorem char_eq_of_toNat (a b : Char) (h : a.toNat = b.toNat) : a = b :=
  Char.eq_of_val_eq (UInt32.eq_of_toBitVec_eq (BitVec.eq_of_toNat_eq h))

theorem toNat_ofNat_lt (n : Nat) (h : n < 55296) : (Char.ofNat n).toNat = n := by
  have hv : n.isValidChar := Or.inl h
  simp [Char.ofNat, Char.toNat, UInt32.toNat, hv, Char.ofNatAux]

theorem toLower_toNat (c : Char) :
    c.toLower.toNat = if 65 ≤ c.toNat ∧ c.toNat ≤ 90 then c.toNat + 32 else c.toNat := by
  unfold Char.toLower
  by_cases h : c.toNat ≥ 65 ∧ c.toNat ≤ 90
  · rw [if_pos h, if_pos ⟨h.1, h.2⟩, toNat_ofNat_lt]; omega
  · rw [if_neg h, if_neg (by omega)]

theorem isDigit_iff (c : Char) : c.isDigit = true ↔ 48 ≤ c.toNat ∧ c.toNat ≤ 57 := by
  simp only [Char.isDigit, Bool.and_eq_true, decide_eq_true_eq]
  constructor
  · rintro ⟨h1, h2⟩
    exact ⟨by simpa [Char.toNat, UInt32.toNat] using (BitVec.le_def).mp ((UInt32.le_def).1 h1),
      by simpa [Char.toNat, UInt32.toNat] using (BitVec.le_def).mp ((UInt32.le_def).1 h2)⟩
  · rintro ⟨h1, h2⟩
    constructor
    · exact (UInt32.le_def).2 ((BitVec.le_def).mpr (by
        simpa [Char.toNat, UInt32.toNat] using h1))
    · exact (UInt32.le_def).2 ((BitVec.le_def).mpr (by
        simpa [Char.toNat, UInt32.toNat] using h2))

theorem isHexC_iff (c : Char) :
    isHexC c = true ↔
      (48 ≤ c.toNat ∧ c.toNat ≤ 57) ∨ (97 ≤ c.toNat ∧ c.toNat ≤ 102) ∨
        (65 ≤ c.toNat ∧ c.toNat ≤ 70) := by
  unfold isHexC
  simp only [Bool.or_eq_true, decide_eq_true_eq, isDigit_iff, char_le_iff]
  have ecs : ('a' : Char).toNat = 97 ∧ ('f' : Char).toNat = 102 ∧
      ('A' : Char).toNat = 65 ∧ ('F' : Char).toNat = 70 := by decide
  rw [ecs.1, ecs.2.1, ecs.2.2.1, ecs.2.2.2]

end Calo

namespace Calo

theorem takeWhile_all {p : Char → Bool} {l : Str}
    (h : ∀ c ∈ l, p c = true) : l.takeWhile p = l := by
  induction l with
  | nil => rfl
  | cons c cs ih =>
      rw [List.takeWhile_cons, h c (by simp)]
      simp [ih fun x hx => h x (by simp [hx])]

theorem dropWhile_all_neg {p : Char → Bool} {l : Str}
    (h : ∀ c ∈ l, p c = false) : l.dropWhile p = l := by
  cases l with
  | nil => rfl
  | cons c cs => rw [List.dropWhile_cons, h c (by simp)]; simp

theorem takeWhile_append_of_stop {p : Char → Bool} {l l' : Str}
    (h : ∃ x ∈ l, p x = false) :
    (l ++ l').takeWhile p = l.takeWhile p := by
  induction l with
  | nil => simp at h
  | cons c cs ih =>
      rw [List.cons_append, List.takeWhile_cons, List.takeWhile_cons]
      cases hp : p c with
      | false => simp
      | true =>
          simp only [if_pos rfl]
          obtain ⟨x, hx, hpx⟩ := h
          rcases List.mem_cons.1 hx with rfl | hx'
          · rw [hp] at hpx; cases hpx
          · simp [ih ⟨x, hx', hpx⟩]

theorem splitOnC_ne_nil (sep : Char) (l : Str) : splitOnC sep l ≠ [] := by
  cases l with
  | nil => simp [splitOnC]
  | cons c cs =>
      unfold splitOnC
      by_cases h : c = sep
      · simp [h]
      · simp only [h, if_false]
        cases splitOnC sep cs <;> simp

theorem splitOnC_head (sep : Char) (l : Str) :
    (splitOnC sep l).head? = some (l.takeWhile (fun c => decide (c ≠ sep))) := by
  induction l with
  | nil => simp [splitOnC]
  | cons c cs ih =>
      unfold splitOnC
      by_cases h : c = sep
      · simp [h, List.takeWhile_cons]
      · simp only [h, if_false, List.takeWhile_cons, decide_eq_true_eq]
        cases hs : splitOnC sep cs with
        | nil => exact absurd hs (splitOnC_ne_nil sep cs)
        | cons p ps =>
            rw [hs] at ih
            simp only [List.head?_cons, Option.some.injEq] at ih ⊢
            simp [h, ih]

theorem splitOnC_no_sep (sep : Char) (l : Str) (h : sep ∉ l) :
    splitOnC sep l = [l] := by
  induction l with
  | nil => rfl
  | cons c cs ih =>
      unfold splitOnC
      have hc : ¬c = sep := fun hcs => h (by simp [hcs])
      simp only [hc, if_false]
      rw [ih (fun hs => h (by simp [hs]))]

theorem joinSep_splitOnC (sep : Char) (l : Str) :
    joinSep sep (splitOnC sep l) = l := by
  induction l with
  | nil => rfl
  | cons c cs ih =>
      unfold splitOnC
      by_cases h : c = sep
      · subst h
        cases hs : splitOnC c cs with
        | nil => exact absurd hs (splitOnC_ne_nil c cs)
        | cons p ps => rw [hs] at ih; simp [joinSep, ih]
      · simp only [h, if_false]
        cases hs : splitOnC sep cs with
        | nil => exact absurd hs (splitOnC_ne_nil sep cs)
        | cons p ps =>
            rw [hs] at ih
            cases ps with
            | nil => simp [joinSep] at ih ⊢; simp [ih]
            | cons q qs => simp [joinSep] at ih ⊢; simp [ih]

theorem splitOnC_mem_chars (sep : Char) (l : Str) (c : Char) (hc : c ∈ l) :
    c = sep ∨ ∃ p ∈ splitOnC sep l, c ∈ p := by
  induction l with
  | nil => simp at hc
  | cons x xs ih =>
      unfold splitOnC
      by_cases h : x = sep
      · rcases List.mem_cons.1 hc with rfl | hc'
        · exact Or.inl h
        · rcases ih hc' with h' | ⟨p, hp, hcp⟩
          · exact Or.inl h'
          · exact Or.inr ⟨p, by simp [h, hp], hcp⟩
      · simp only [h, if_false]
        cases hs : splitOnC sep xs with
        | nil => exact absurd hs (splitOnC_ne_nil sep xs)
        | cons p ps =>
            rcases List.mem_cons.1 hc with rfl | hc'
            · exact Or.inr ⟨c :: p, by simp, by simp⟩
            · rcases ih hc' with h' | ⟨q, hq, hcq⟩
              · exact Or.inl h'
              · rw [hs] at hq
                rcases List.mem_cons.1 hq with rfl | hq'
                · exact Or.inr ⟨x :: q, by simp, by simp [hcq]⟩
                · exact Or.inr ⟨q, by simp [hq'], hcq⟩

theorem getLast?_joinSep (sep : Char) (parts : List Str) (p : Str)
    (h : parts.getLast? = some p) :
    (joinSep sep parts).getLast? = p.getLast? ∨
      (p = [] ∧ (joinSep sep parts).getLast? = some sep) := by
  induction parts with
  | nil => simp at h
  | cons q qs ih =>
      cases qs with
      | nil =>
          simp only [List.getLast?_cons, List.getLast?_nil, Option.getD_none,
            Option.some.injEq] at h
          subst h
          left; rfl
      | cons r rs =>
          have h2 : (r :: rs).getLast? = some p := by
            rw [List.getLast?_cons_cons] at h; exact h
          have hj : joinSep sep (q :: r :: rs) = q ++ sep :: joinSep sep (r :: rs) := rfl
          rw [hj, List.getLast?_append]
          rcases ih h2 with h3 | ⟨hp, h3⟩
          · cases hJ : joinSep sep (r :: rs) with
            | nil =>
                rw [hJ] at h3
                simp only [List.getLast?_nil] at h3
                right
                refine ⟨(List.getLast?_eq_none_iff).1 h3.symm, ?_⟩
                simp
            | cons j js =>
                rw [hJ] at h3
                left
                rw [List.getLast?_cons_cons, h3]
                have hps : p.getLast?.isSome := by
                  rw [← h3]
                  cases hx : (j :: js).getLast? with
                  | none => exact absurd ((List.getLast?_eq_none_iff).1 hx) (by simp)
                  | some x => simp
                cases hx : p.getLast? with
                | none => rw [hx] at hps; simp at hps
                | some x => simp [Option.or]
          · right
            refine ⟨hp, ?_⟩
            cases hJ : joinSep sep (r :: rs) with
            | nil => rw [hJ] at h3; simp at h3
            | cons j js =>
                rw [hJ] at h3
                rw [List.getLast?_cons_cons, h3]
                simp [Option.or]

end Calo

namespace Calo

/-! ## Character transfer lemmas for the lowercasing step -/

theorem lowCh_of_goodCh (c : Char)
    (h : isHexC c = true ∨ c = ':' ∨ c = '.' ∨ c = '[' ∨ c = ']') :
    (48 ≤ c.toLower.toNat ∧ c.toLower.toNat ≤ 57) ∨
      (97 ≤ c.toLower.toNat ∧ c.toLower.toNat ≤ 102) ∨
      c.toLower.toNat = 58 ∨ c.toLower.toNat = 46 ∨
      c.toLower.toNat = 91 ∨ c.toLower.toNat = 93 := by
  rw [toLower_toNat]
  rcases h with h | rfl | rfl | rfl | rfl
  · rcases (isHexC_iff c).1 h with ⟨h1, h2⟩ | ⟨h1, h2⟩ | ⟨h1, h2⟩
    · rw [if_neg (by omega)]; omega
    · rw [if_neg (by omega)]; omega
    · rw [if_pos (by omega)]; omega
  · have : (':' : Char).toNat = 58 := rfl
    rw [this, if_neg (by omega)]; omega
  · have : ('.' : Char).toNat = 46 := rfl
    rw [this, if_neg (by omega)]; omega
  · have : ('[' : Char).toNat = 91 := rfl
    rw [this, if_neg (by omega)]; omega
  · have : (']' : Char).toNat = 93 := rfl
    rw [this, if_neg (by omega)]; omega

theorem toLower_eq_char (c t : Char)
    (ht1 : ¬(65 ≤ t.toNat ∧ t.toNat ≤ 90))
    (ht2 : ¬(97 ≤ t.toNat ∧ t.toNat ≤ 122)) :
    c.toLower = t ↔ c = t := by
  constructor
  · intro h
    have hn := congrArg Char.toNat h
    rw [toLower_toNat] at hn
    by_cases hu : 65 ≤ c.toNat ∧ c.toNat ≤ 90
    · rw [if_pos hu] at hn; omega
    · rw [if_neg hu] at hn; exact char_eq_of_toNat _ _ hn
  · rintro rfl
    apply char_eq_of_toNat
    rw [toLower_toNat, if_neg ht1]

theorem isJsSpace_false_of_lowCh (c : Char)
    (h : (48 ≤ c.toNat ∧ c.toNat ≤ 57) ∨ (97 ≤ c.toNat ∧ c.toNat ≤ 102) ∨
      c.toNat = 58 ∨ c.toNat = 46 ∨ c.toNat = 91 ∨ c.toNat = 93) :
    isJsSpace c = false := by
  by_contra hcon
  rw [Bool.not_eq_false] at hcon
  unfold isJsSpace at hcon
  simp only [Bool.decide_or, Bool.or_eq_true, decide_eq_true_eq] at hcon
  rcases hcon with rfl | rfl | rfl | rfl | rfl | rfl <;> revert h <;> decide

/-! ## Identity of the normalization pipeline on literal-shaped input -/

theorem trimC_eq_self (l : Str) (h : ∀ c ∈ l, isJsSpace c = false) :
    trimC l = l := by
  unfold trimC
  rw [dropWhile_all_neg h,
    dropWhile_all_neg (fun c hc => h c (List.mem_reverse.1 hc)),
    List.reverse_reverse]

theorem dropTrailingDots_eq_self (l : Str) (h : l.getLast? ≠ some '.') :
    dropTrailingDots l = l := by
  unfold dropTrailingDots
  cases hr : l.reverse with
  | nil =>
      have hl : l = [] := by simpa using congrArg List.reverse hr
      simp [hl]
  | cons c cs =>
      have hc : c ≠ '.' := by
        intro h'
        apply h
        rw [← List.head?_reverse, hr, h']
        rfl
      rw [List.dropWhile_cons, if_neg (by simp [hc]), ← hr, List.reverse_reverse]

theorem stripScheme_eq_self (l : Str)
    (h : ∀ c ∈ l, c ≠ 'h') : stripScheme l = l := by
  unfold stripScheme
  have h8 : ¬(str "https://").isPrefixOf l := by
    intro hp
    obtain ⟨t, ht⟩ := List.isPrefixOf_iff_prefix.1 hp
    have : 'h' ∈ l := ht ▸ List.mem_append.2 (Or.inl (by decide))
    exact h _ this rfl
  have h7 : ¬(str "http://").isPrefixOf l := by
    intro hp
    obtain ⟨t, ht⟩ := List.isPrefixOf_iff_prefix.1 hp
    have : 'h' ∈ l := ht ▸ List.mem_append.2 (Or.inl (by decide))
    exact h _ this rfl
  rw [if_neg h8, if_neg h7]

/-- On input whose characters are hex digits, colons, dots and brackets
(the shapes of IP literals), with no trailing dot, the whole
normalization pipeline reduces to lowercasing followed by the port
strip. -/
theorem hostPortStripped_eq_lower_takeWhile (l : Str)
    (hch : ∀ c ∈ l, isHexC c = true ∨ c = ':' ∨ c = '.' ∨ c = '[' ∨ c = ']')
    (hlast : l.getLast? ≠ some '.') :
    hostPortStripped l = (lowerC l).takeWhile (fun c => decide (c ≠ ':')) := by
  have hlow : ∀ c ∈ lowerC l,
      (48 ≤ c.toNat ∧ c.toNat ≤ 57) ∨ (97 ≤ c.toNat ∧ c.toNat ≤ 102) ∨
        c.toNat = 58 ∨ c.toNat = 46 ∨ c.toNat = 91 ∨ c.toNat = 93 := by
    intro c hc
    obtain ⟨c0, hc0, rfl⟩ := List.mem_map.1 hc
    exact lowCh_of_goodCh c0 (hch c0 hc0)
  have htrim : trimC (lowerC l) = lowerC l :=
    trimC_eq_self _ (fun c hc => isJsSpace_false_of_lowCh c (hlow c hc))
  have hdots : dropTrailingDots (lowerC l) = lowerC l := by
    apply dropTrailingDots_eq_self
    intro hcontra
    unfold lowerC at hcontra
    rw [List.getLast?_map] at hcontra
    cases hgl : l.getLast? with
    | none => rw [hgl] at hcontra; simp at hcontra
    | some x =>
        rw [hgl] at hcontra
        simp only [Option.map_some', Option.some.injEq] at hcontra
        have hx : x = '.' := (toLower_eq_char x '.' (by decide) (by decide)).1 hcontra
        exact hlast (by rw [hgl, hx])
  have hscheme : stripScheme (lowerC l) = lowerC l := by
    apply stripScheme_eq_self
    intro c hc hch'
    have := hlow c hc
    rw [hch'] at this
    revert this; decide
  have hslash : (lowerC l).takeWhile (fun c => decide (c ≠ '/')) = lowerC l := by
    apply takeWhile_all
    intro c hc
    simp only [decide_eq_true_eq]
    intro hc'
    have := hlow c hc
    rw [hc'] at this
    revert this; decide
  have hq : (lowerC l).takeWhile (fun c => decide (c ≠ '?')) = lowerC l := by
    apply takeWhile_all
    intro c hc
    simp only [decide_eq_true_eq]
    intro hc'
    have := hlow c hc
    rw [hc'] at this
    revert this; decide
  have hhash : (lowerC l).takeWhile (fun c => decide (c ≠ '#')) = lowerC l := by
    apply takeWhile_all
    intro c hc
    simp only [decide_eq_true_eq]
    intro hc'
    have := hlow c hc
    rw [hc'] at this
    revert this; decide
  unfold hostPortStripped normalizeHost
  rw [htrim, hdots, hscheme, hslash, hq, hhash]

end Calo

namespace Calo

/-! ## Shape facts extracted from the IP-literal grammars -/

theorem isHexC_of_isDigit (c : Char) (h : c.isDigit = true) : isHexC c = true := by
  rw [isHexC_iff]
  exact Or.inl ((isDigit_iff c).1 h)

theorem hexC_ne_dot (c : Char) (h : isHexC c = true) : c ≠ '.' := by
  rintro rfl
  revert h; decide

theorem hexC_ne_colon (c : Char) (h : isHexC c = true) : c ≠ ':' := by
  rintro rfl
  revert h; decide

theorem digit_ne_dot (c : Char) (h : c.isDigit = true) : c ≠ '.' := by
  rintro rfl
  revert h; decide

theorem isOctet_facts (p : Str) (h : isOctet p = true) :
    p ≠ [] ∧ ∀ c ∈ p, c.isDigit = true := by
  unfold isOctet at h
  simp only [Bool.and_eq_true, decide_eq_true_eq, List.all_eq_true] at h
  exact ⟨by simpa using h.1, fun c hc => h.2.1 c hc⟩

theorem ipv4_shape (l : Str) (h : isIPv4 l = true) :
    l ≠ [] ∧ (∀ c ∈ l, c.isDigit = true ∨ c = '.') ∧
      (∃ c, l.getLast? = some c ∧ c.isDigit = true) := by
  unfold isIPv4 at h
  rcases hp : splitOnC '.' l with _ | ⟨a, _ | ⟨b, _ | ⟨c, _ | ⟨d, _ | ⟨e, rest⟩⟩⟩⟩⟩ <;>
    rw [hp] at h <;> simp at h
  obtain ⟨ha, hb, hc, hd⟩ := h
  obtain ⟨hane, hadig⟩ := isOctet_facts a ha
  obtain ⟨hbne, hbdig⟩ := isOctet_facts b hb
  obtain ⟨hcne, hcdig⟩ := isOctet_facts c hc
  obtain ⟨hdne, hddig⟩ := isOctet_facts d hd
  have hmem : ∀ x ∈ l, x.isDigit = true ∨ x = '.' := by
    intro x hx
    rcases splitOnC_mem_chars '.' l x hx with h' | ⟨p, hpmem, hxp⟩
    · exact Or.inr h'
    · rw [hp] at hpmem
      simp only [List.mem_cons, List.mem_singleton, List.not_mem_nil] at hpmem
      rcases hpmem with rfl | rfl | rfl | rfl | hfalse
      rotate_right
      · exact absurd hfalse not_false
      · exact Or.inl (hadig x hxp)
      · exact Or.inl (hbdig x hxp)
      · exact Or.inl (hcdig x hxp)
      · exact Or.inl (hddig x hxp)
  refine ⟨?_, hmem, ?_⟩
  · intro hl
    subst hl
    simp [splitOnC] at hp
  · have hjoin : joinSep '.' [a, b, c, d] = l := by
      rw [← hp]; exact joinSep_splitOnC '.' l
    have hlast4 : ([a, b, c, d] : List Str).getLast? = some d := rfl
    rcases getLast?_joinSep '.' [a, b, c, d] d hlast4 with h' | ⟨hdnil, h'⟩
    · rw [hjoin] at h'
      have hx := List.getLast?_eq_getLast d hdne
      exact ⟨d.getLast hdne, by rw [h', hx], hddig _ (List.getLast_mem hdne)⟩
    · exact absurd hdnil hdne

end Calo

namespace Calo

theorem isHexGroup_facts (p : Str) (h : isHexGroup p = true) :
    p ≠ [] ∧ ∀ c ∈ p, isHexC c = true := by
  unfold isHexGroup at h
  simp only [Bool.and_eq_true, decide_eq_true_eq, List.all_eq_true] at h
  exact ⟨by simpa using h.1, h.2.2⟩

/-- The last-part condition shared by the IPv6 part validators. -/
theorem lastPart_of_hex_or_v4 (p : Str)
    (h : isHexGroup p = true ∨ isIPv4 p = true) :
    p = [] ∨ ∃ c, p.getLast? = some c ∧ isHexC c = true := by
  rcases h with h | h
  · obtain ⟨hne, hhex⟩ := isHexGroup_facts p h
    exact Or.inr ⟨p.getLast hne, List.getLast?_eq_getLast p hne,
      hhex _ (List.getLast_mem hne)⟩
  · obtain ⟨hne, hdig, ⟨c, hc, hcd⟩⟩ := ipv4_shape p h
    exact Or.inr ⟨c, hc, isHexC_of_isDigit c hcd⟩

theorem ipv6After_facts (parts : List Str) (n : Nat)
    (h : ipv6After parts n = true) :
    parts ≠ [] ∧ (∀ p ∈ parts, ∀ c ∈ p, isHexC c = true ∨ c = '.') ∧
      ∃ p, parts.getLast? = some p ∧
        (p = [] ∨ ∃ c, p.getLast? = some c ∧ isHexC c = true) := by
  induction parts generalizing n with
  | nil => simp [ipv6After] at h
  | cons q qs ih =>
      cases qs with
      | nil =>
          simp only [ipv6After] at h
          by_cases hq : q.isEmpty
          · have hq' : q = [] := by simpa using hq
            refine ⟨by simp, ?_, ⟨[], by simp [hq'], Or.inl rfl⟩⟩
            intro p hp c hc
            simp only [List.mem_singleton] at hp
            subst hp
            rw [hq'] at hc
            simp at hc
          · rw [if_neg hq] at h
            simp only [Bool.or_eq_true, Bool.and_eq_true, decide_eq_true_eq] at h
            have hgrp : isHexGroup q = true ∨ isIPv4 q = true := by
              rcases h with ⟨h1, _⟩ | ⟨h1, _⟩
              · exact Or.inl h1
              · exact Or.inr h1
            refine ⟨by simp, ?_, ⟨q, by simp, lastPart_of_hex_or_v4 q hgrp⟩⟩
            intro p hp c hc
            simp only [List.mem_singleton] at hp
            subst hp
            rcases hgrp with hg | hg
            · exact Or.inl ((isHexGroup_facts p hg).2 c hc)
            · rcases (ipv4_shape p hg).2.1 c hc with hd | hd
              · exact Or.inl (isHexC_of_isDigit c hd)
              · exact Or.inr hd
      | cons r rs =>
          simp only [ipv6After, Bool.and_eq_true, decide_eq_true_eq] at h
          obtain ⟨hhex, hrest⟩ := h
          obtain ⟨hne, hch, ⟨p, hpl, hpc⟩⟩ := ih (n + 1) hrest
          refine ⟨by simp, ?_, ⟨p, ?_, hpc⟩⟩
          · intro x hx c hc
            rcases List.mem_cons.1 hx with rfl | hx'
            · exact Or.inl ((isHexGroup_facts x hhex).2 c hc)
            · exact hch x hx' c hc
          · rw [List.getLast?_cons_cons]
            exact hpl

theorem ipv6Before_facts (parts : List Str) (n : Nat)
    (h : ipv6Before parts n = true) :
    parts ≠ [] ∧ (∀ p ∈ parts, ∀ c ∈ p, isHexC c = true ∨ c = '.') ∧
      ∃ p, parts.getLast? = some p ∧
        (p = [] ∨ ∃ c, p.getLast? = some c ∧ isHexC c = true) := by
  induction parts generalizing n with
  | nil => simp [ipv6Before] at h
  | cons q qs ih =>
      cases qs with
      | nil =>
          simp only [ipv6Before, Bool.or_eq_true, Bool.and_eq_true,
            decide_eq_true_eq] at h
          have hgrp : isHexGroup q = true ∨ isIPv4 q = true := by
            rcases h with ⟨h1, _⟩ | ⟨h1, _⟩
            · exact Or.inl h1
            · exact Or.inr h1
          refine ⟨by simp, ?_, ⟨q, by simp, lastPart_of_hex_or_v4 q hgrp⟩⟩
          intro p hp c hc
          simp only [List.mem_singleton] at hp
          subst hp
          rcases hgrp with hg | hg
          · exact Or.inl ((isHexGroup_facts p hg).2 c hc)
          · rcases (ipv4_shape p hg).2.1 c hc with hd | hd
            · exact Or.inl (isHexC_of_isDigit c hd)
            · exact Or.inr hd
      | cons r rs =>
          simp only [ipv6Before] at h
          by_cases hq : q.isEmpty
          · rw [if_pos hq] at h
            have hq' : q = [] := by simpa using hq
            obtain ⟨hne, hch, ⟨p, hpl, hpc⟩⟩ := ipv6After_facts (r :: rs) n h
            refine ⟨by simp, ?_, ⟨p, ?_, hpc⟩⟩
            · intro x hx c hc
              rcases List.mem_cons.1 hx with rfl | hx'
              · rw [hq'] at hc; simp at hc
              · exact hch x hx' c hc
            · rw [List.getLast?_cons_cons]
              exact hpl
          · rw [if_neg hq] at h
            simp only [Bool.and_eq_true, decide_eq_true_eq] at h
            obtain ⟨hhex, hrest⟩ := h
            obtain ⟨hne, hch, ⟨p, hpl, hpc⟩⟩ := ih (n + 1) hrest
            refine ⟨by simp, ?_, ⟨p, ?_, hpc⟩⟩
            · intro x hx c hc
              rcases List.mem_cons.1 hx with rfl | hx'
              · exact Or.inl ((isHexGroup_facts x hhex).2 c hc)
              · exact hch x hx' c hc
            · rw [List.getLast?_cons_cons]
              exact hpl

theorem getLast_ne_dot_of_parts (l : Str) (parts : List Str)
    (hp : splitOnC ':' l = parts) (p : Str)
    (hl : parts.getLast? = some p)
    (hcond : p = [] ∨ ∃ c, p.getLast? = some c ∧ isHexC c = true) :
    l.getLast? ≠ some '.' := by
  have hj : joinSep ':' parts = l := by rw [← hp]; exact joinSep_splitOnC ':' l
  rcases getLast?_joinSep ':' parts p hl with h' | ⟨hpnil, h'⟩
  · rw [hj] at h'
    rcases hcond with rfl | ⟨c, hc, hhex⟩
    · rw [h']; simp
    · rw [h', hc]
      intro hcontra
      exact hexC_ne_dot c hhex (by injection hcontra)
  · rw [hj] at h'
    rw [h']
    intro hcontra
    injection hcontra with hcontra
    exact absurd hcontra (by decide)

end Calo

namespace Calo

theorem isIPv6_shape (l : Str) (h : isIPv6 l = true) :
    (∀ c ∈ l, isHexC c = true ∨ c = ':' ∨ c = '.') ∧
      ':' ∈ l ∧ l.getLast? ≠ some '.' ∧
      (l.takeWhile (fun c => decide (c ≠ ':')) = [] ∨
        isHexGroup (l.takeWhile (fun c => decide (c ≠ ':'))) = true) := by
  unfold isIPv6 at h
  rcases hp : splitOnC ':' l with _ | ⟨p0, rest⟩
  · exact absurd hp (splitOnC_ne_nil ':' l)
  rw [hp] at h
  have hcolon : rest ≠ [] → ':' ∈ l := by
    intro hrest
    by_contra hc
    rw [splitOnC_no_sep ':' l hc] at hp
    injection hp with h1 h2
    exact hrest h2.symm
  cases p0 with
  | cons x xs =>
      -- first part nonempty: the address does not start with a colon
      cases rest with
      | nil =>
          simp only [ipv6Before, Bool.or_eq_true, Bool.and_eq_true,
            decide_eq_true_eq] at h
          rcases h with ⟨_, h0⟩ | ⟨_, h0⟩ <;> omega
      | cons r rs =>
          have hfacts := ipv6Before_facts ((x :: xs) :: r :: rs) 0 (by
            simpa using h)
          obtain ⟨hne, hch, ⟨p, hpl, hpc⟩⟩ := hfacts
          have hhead := splitOnC_head ':' l
          rw [hp] at hhead
          simp only [List.head?_cons, Option.some.injEq] at hhead
          have hhex0 : isHexGroup (x :: xs) = true := by
            simp only [ipv6Before] at h
            rw [if_neg (by simp)] at h
            simp only [Bool.and_eq_true, decide_eq_true_eq] at h
            exact h.1
          refine ⟨?_, hcolon (by simp), getLast_ne_dot_of_parts l _ hp p hpl hpc, ?_⟩
          · intro c hc
            rcases splitOnC_mem_chars ':' l c hc with h' | ⟨q, hq, hcq⟩
            · exact Or.inr (Or.inl h')
            · rw [hp] at hq
              rcases hch q hq c hcq with h' | h'
              · exact Or.inl h'
              · exact Or.inr (Or.inr h')
          · right
            rw [← hhead]
            exact hhex0
  | nil =>
      -- leading colon: only a leading "::" is accepted
      cases rest with
      | nil => simp at h
      | cons r rest2 =>
          cases r with
          | cons y ys => simp at h
          | nil =>
              have hfacts := ipv6After_facts rest2 0 (by simpa using h)
              obtain ⟨hne, hch, ⟨p, hpl, hpc⟩⟩ := hfacts
              have hlast : ([] :: [] :: rest2).getLast? = some p := by
                rw [List.getLast?_cons_cons]
                cases rest2 with
                | nil => exact absurd rfl hne
                | cons a as => rw [List.getLast?_cons_cons]; exact hpl
              have hhead := splitOnC_head ':' l
              rw [hp] at hhead
              simp only [List.head?_cons, Option.some.injEq] at hhead
              refine ⟨?_, hcolon (by simp),
                getLast_ne_dot_of_parts l _ hp p hlast hpc, Or.inl hhead.symm⟩
              intro c hc
              rcases splitOnC_mem_chars ':' l c hc with h' | ⟨q, hq, hcq⟩
              · exact Or.inr (Or.inl h')
              · rw [hp] at hq
                rcases List.mem_cons.1 hq with rfl | hq'
                · simp at hcq
                · rcases List.mem_cons.1 hq' with rfl | hq2
                  · simp at hcq
                  · rcases hch q hq2 c hcq with h' | h'
                    · exact Or.inl h'
                    · exact Or.inr (Or.inr h')

end Calo

namespace Calo

theorem pslSuffixLen_pos (rules : List (List Str)) (labels : List Str) :
    1 ≤ pslSuffixLen rules labels := by
  unfold pslSuffixLen
  have aux : ∀ (rs : List (List Str)) (acc : Nat),
      acc ≤ rs.foldl
        (fun acc r => if ¬r.isEmpty ∧ r.isSuffixOf labels then max acc r.length else acc)
        acc := by
    intro rs
    induction rs with
    | nil => intro acc; exact le_refl acc
    | cons r rs ih =>
        intro acc
        rw [List.foldl_cons]
        refine le_trans ?_ (ih _)
        by_cases hc : ¬r.isEmpty ∧ r.isSuffixOf labels
        · rw [if_pos hc]; exact Nat.le_max_left _ _
        · rw [if_neg hc]
  exact aux rules 1

/-- Whenever the port-stripped normalized host contains no dot, every
branch of `validateHost` ends in a rejection: the accepting return is
reachable only through `psl.parse` producing a registrable domain, which
needs at least two labels. -/
theorem validateHost_error_of_dotless (rules : List (List Str)) (s : Str)
    (hd : '.' ∉ hostPortStripped s) :
    ∃ e, validateHost rules s = .error e := by
  unfold validateHost
  by_cases h0 : s.isEmpty
  · rw [if_pos h0]; exact ⟨.required, rfl⟩
  rw [if_neg h0]
  by_cases h1 : isIP (hostPortStripped s) = true
  · rw [if_pos h1]; exact ⟨.ipNotAllowed, rfl⟩
  rw [if_neg h1]
  by_cases h2 : bracketTest (hostPortStripped s) = true
  · rw [if_pos h2]; exact ⟨.bracketedIPv6NotAllowed, rfl⟩
  rw [if_neg h2]
  by_cases h3 : dangerousPatterns.any (fun p => p (hostPortStripped s)) = true
  · rw [if_pos h3]; exact ⟨.dangerousHost, rfl⟩
  rw [if_neg h3]
  by_cases h4 : hostnameFormatOk (hostPortStripped s) = true
  case neg =>
    rw [if_pos (by simpa using h4)]; exact ⟨.invalidFormat, rfl⟩
  rw [if_neg (by simpa using h4)]
  have hlab : splitOnC '.' (hostPortStripped s) = [hostPortStripped s] :=
    splitOnC_no_sep '.' _ hd
  by_cases h5 : blockedTlds.contains ((splitOnC '.' (hostPortStripped s)).getLastD []) = true
  · rw [if_pos h5]; exact ⟨.blockedTld, rfl⟩
  rw [if_neg h5]
  have hdom : (pslParse rules (hostPortStripped s)).domain = none := by
    unfold pslParse
    rw [hlab]
    simp only [List.length_singleton]
    rw [if_neg]
    have := pslSuffixLen_pos rules [hostPortStripped s]
    omega
  refine ⟨.noDomain, ?_⟩
  simp only [hdom]

end Calo

namespace Calo

theorem toLower_eq_self_of_toNat (c : Char)
    (h : ¬(65 ≤ c.toNat ∧ c.toNat ≤ 90)) : c.toLower = c := by
  apply char_eq_of_toNat
  rw [toLower_toNat, if_neg h]

theorem lowerC_eq_self (l : Str) (h : ∀ c ∈ l, Char.toLower c = c) :
    lowerC l = l := by
  unfold lowerC
  induction l with
  | nil => rfl
  | cons c cs ih =>
      rw [List.map_cons, h c (by simp), ih fun x hx => h x (by simp [hx])]

theorem takeWhile_ne_colon_lowerC (l : Str) :
    (lowerC l).takeWhile (fun c => decide (c ≠ ':')) =
      lowerC (l.takeWhile (fun c => decide (c ≠ ':'))) := by
  unfold lowerC
  have hp : ((fun c => decide (c ≠ ':')) ∘ Char.toLower) =
      (fun c => decide (c ≠ ':')) := by
    funext c
    simp only [Function.comp_apply, decide_eq_decide]
    exact not_congr (toLower_eq_char c ':' (by decide) (by decide))
  rw [List.takeWhile_map, hp]

theorem dot_not_mem_lower_firstPart (fp : Str)
    (h : fp = [] ∨ isHexGroup fp = true) : '.' ∉ lowerC fp := by
  intro hmem
  obtain ⟨c0, hc0, hc0l⟩ := List.mem_map.1 hmem
  have hc0d : c0 = '.' := (toLower_eq_char c0 '.' (by decide) (by decide)).1 hc0l
  subst hc0d
  rcases h with rfl | h
  · simp at hc0
  · exact hexC_ne_dot _ ((isHexGroup_facts fp h).2 _ hc0) rfl

/-- C7: every syntactically valid IP literal — dotted-decimal IPv4,
(possibly compressed or IPv4-mapped) IPv6, or bracketed IPv6 — is
rejected by `validateHost`, whatever the public-suffix rule list. -/
theorem validateHost_rejects_ip_literals (rules : List (List Str)) (s : Str)
    (h : isIPv4 s = true ∨ isIPv6 s = true ∨
      ∃ t, isIPv6 t = true ∧ s = '[' :: (t ++ [']'])) :
    ∃ e, validateHost rules s = .error e := by
  rcases h with h | h | ⟨t, ht, rfl⟩
  · -- IPv4 literal: the normalization pipeline is the identity and the
    -- explicit isIP check fires.
    obtain ⟨hne, hch, ⟨c0, hc0, hc0d⟩⟩ := ipv4_shape s h
    have hgood : ∀ c ∈ s, isHexC c = true ∨ c = ':' ∨ c = '.' ∨ c = '[' ∨ c = ']' := by
      intro c hc
      rcases hch c hc with hd | hd
      · exact Or.inl (isHexC_of_isDigit c hd)
      · exact Or.inr (Or.inr (Or.inl hd))
    have hlast : s.getLast? ≠ some '.' := by
      rw [hc0]
      intro hx
      injection hx with hx
      exact digit_ne_dot c0 hc0d hx
    have hlow : lowerC s = s := by
      apply lowerC_eq_self
      intro c hc
      apply toLower_eq_self_of_toNat
      rcases hch c hc with hd | rfl
      · have := (isDigit_iff c).1 hd; omega
      · have : ('.' : Char).toNat = 46 := rfl
        omega
    have hhps : hostPortStripped s = s := by
      rw [hostPortStripped_eq_lower_takeWhile s hgood hlast, hlow]
      apply takeWhile_all
      intro c hc
      simp only [decide_eq_true_eq]
      rintro rfl
      rcases hch _ hc with hd | hd
      · revert hd; decide
      · exact absurd hd (by decide)
    refine ⟨.ipNotAllowed, ?_⟩
    unfold validateHost
    rw [if_neg (by simpa using hne), if_pos (by rw [hhps]; simp [isIP, h])]
  · -- bare IPv6 literal: the port strip cuts at the first colon, leaving
    -- a dotless string, so the registrable-domain extraction fails.
    obtain ⟨hch, hcolon, hlast, hfirst⟩ := isIPv6_shape s h
    have hgood : ∀ c ∈ s, isHexC c = true ∨ c = ':' ∨ c = '.' ∨ c = '[' ∨ c = ']' := by
      intro c hc
      rcases hch c hc with hx | hx | hx
      · exact Or.inl hx
      · exact Or.inr (Or.inl hx)
      · exact Or.inr (Or.inr (Or.inl hx))
    apply validateHost_error_of_dotless
    rw [hostPortStripped_eq_lower_takeWhile s hgood hlast, takeWhile_ne_colon_lowerC]
    exact dot_not_mem_lower_firstPart _ hfirst
  · -- bracketed IPv6 literal
    obtain ⟨hch, hcolon, _, hfirst⟩ := isIPv6_shape t ht
    have hgood : ∀ c ∈ '[' :: (t ++ [']']),
        isHexC c = true ∨ c = ':' ∨ c = '.' ∨ c = '[' ∨ c = ']' := by
      intro c hc
      rcases List.mem_cons.1 hc with rfl | hc'
      · exact Or.inr (Or.inr (Or.inr (Or.inl rfl)))
      · rcases List.mem_append.1 hc' with hc2 | hc2
        · rcases hch c hc2 with hx | hx | hx
          · exact Or.inl hx
          · exact Or.inr (Or.inl hx)
          · exact Or.inr (Or.inr (Or.inl hx))
        · simp only [List.mem_singleton] at hc2
          subst hc2
          exact Or.inr (Or.inr (Or.inr (Or.inr rfl)))
    have hlast : ('[' :: (t ++ [']'])).getLast? ≠ some '.' := by
      rw [List.getLast?_cons, List.getLast?_concat]
      simp
    apply validateHost_error_of_dotless
    rw [hostPortStripped_eq_lower_takeWhile _ hgood hlast]
    have hlowcons : lowerC ('[' :: (t ++ [']'])) = '[' :: (lowerC t ++ [']']) := by
      unfold lowerC
      rw [List.map_cons, List.map_append]
      rfl
    rw [hlowcons]
    rw [List.takeWhile_cons, if_pos (by decide)]
    have hstop : ∃ x ∈ lowerC t, (fun c => decide (c ≠ ':')) x = false := by
      refine ⟨':', List.mem_map.2 ⟨':', hcolon, rfl⟩, by decide⟩
    rw [takeWhile_append_of_stop hstop, takeWhile_ne_colon_lowerC]
    intro hmem
    rcases List.mem_cons.1 hmem with hx | hx
    · exact absurd hx (by decide)
    · exact dot_not_mem_lower_firstPart _ hfirst hx

/-- C7 witness: concrete literals of all three kinds. -/
theorem validateHost_rejects_ip_literals_witness :
    (∃ e, validateHost [[str "com"]] (str "8.8.8.8") = .error e) ∧
    (∃ e, validateHost [[str "com"]] (str "::1") = .error e) ∧
    (∃ e, validateHost [[str "com"]] (str "[::1]") = .error e) :=
  ⟨validateHost_rejects_ip_literals _ _ (Or.inl (by decide)),
   validateHost_rejects_ip_literals _ _ (Or.inr (Or.inl (by decide))),
   validateHost_rejects_ip_literals _ _
     (Or.inr (Or.inr ⟨str "::1", by decide, by decide⟩))⟩

end Calo

namespace Calo

/-! ## Theorems: C1 and C6 (SsrfGuard DNS validation) -/

theorem collectPublicV4_error_of_mem (addrs : List Str) (ip : Str)
    (hmem : ip ∈ addrs) (hpriv : isPrivateIPv4 ip = true) :
    collectPublicV4 addrs = .error .privateNetworkTarget := by
  induction addrs with
  | nil => simp at hmem
  | cons a rest ih =>
      unfold collectPublicV4
      by_cases ha : isPrivateIPv4 a = true
      · rw [if_pos ha]
      · rw [if_neg ha]
        rcases List.mem_cons.1 hmem with rfl | hmem'
        · exact absurd hpriv ha
        · rw [ih hmem']

theorem collectPublicV6_error_of_mem (addrs : List Str) (ip : Str)
    (hmem : ip ∈ addrs) (hpriv : isPrivateIPv6 ip = true) :
    collectPublicV6 addrs = .error .privateNetworkTarget := by
  induction addrs with
  | nil => simp at hmem
  | cons a rest ih =>
      unfold collectPublicV6
      by_cases ha : isPrivateIPv6 a = true
      · rw [if_pos ha]
      · rw [if_neg ha]
        rcases List.mem_cons.1 hmem with rfl | hmem'
        · exact absurd hpriv ha
        · rw [ih hmem']

theorem collectPublicV4_error_is_private (addrs : List Str) (e : SsrfError)
    (h : collectPublicV4 addrs = .error e) : e = .privateNetworkTarget := by
  induction addrs with
  | nil => simp [collectPublicV4] at h
  | cons a rest ih =>
      unfold collectPublicV4 at h
      by_cases ha : isPrivateIPv4 a = true
      · rw [if_pos ha] at h
        injection h with h
        exact h.symm
      · rw [if_neg ha] at h
        cases hr : collectPublicV4 rest with
        | error e2 =>
            rw [hr] at h
            injection h with h
            subst h
            exact ih hr
        | ok tail => rw [hr] at h; cases h

/-- C1: whenever the hostname itself passes `validateHost` and the IPv4
resolution returns at least one address in a blocked range,
`validateDnsResolution` rejects with the private-network error — even if
the other resolved addresses are public. -/
theorem validateDnsResolution_rejects_private_v4 (rules : List (List Str))
    (hostname : Str) (dns : DnsOutcome) (r : ValidatedHost)
    (addrs : List Str) (ip : Str)
    (hok : validateHost rules hostname = .ok r)
    (hv4 : dns.v4 = .ok addrs)
    (hmem : ip ∈ addrs) (hpriv : isPrivateIPv4 ip = true) :
    validateDnsResolution rules hostname dns = .error .privateNetworkTarget := by
  unfold validateDnsResolution
  simp only [hok, hv4, collectPublicV4_error_of_mem addrs ip hmem hpriv]

/-- C1 witness: `example.com` resolving to a public address plus one
address in 10.0.0.0/8 is rejected as a private-network target. -/
theorem validateDnsResolution_rejects_private_v4_witness :
    validateDnsResolution [[str "com"]] (str "example.com")
      ⟨.ok [str "93.184.216.34", str "10.0.0.1"], .error ()⟩ =
      .error .privateNetworkTarget :=
  validateDnsResolution_rejects_private_v4 [[str "com"]] (str "example.com")
    ⟨.ok [str "93.184.216.34", str "10.0.0.1"], .error ()⟩
    ⟨str "example.com", str "example.com"⟩
    [str "93.184.216.34", str "10.0.0.1"] (str "10.0.0.1")
    rfl rfl (by decide) (by decide)

/-- C6 counterexample: IPv4-mapped IPv6 addresses whose embedded IPv4 is
blocked (link-local `169.254.169.254`, carrier-grade NAT `100.64.0.1`)
are not classified as private, and a hostname resolving only to the
mapped metadata address passes DNS validation; `fe81::1`, inside
`fe80::/10`, is likewise missed. -/
theorem isPrivateIPv6_misses_blocked_mapped :
    isPrivateIPv6 (str "::ffff:169.254.169.254") = false ∧
    isPrivateIPv6 (str "::ffff:100.64.0.1") = false ∧
    isPrivateIPv6 (str "fe81::1") = false ∧
    validateDnsResolution [[str "com"]] (str "example.com")
      ⟨.error (), .ok [str "::ffff:169.254.169.254"]⟩ =
      .ok ([], [str "::ffff:169.254.169.254"]) :=
  ⟨by decide, by decide, by decide, rfl⟩

/-- C6 (amended): for a hostname that passes host validation, a resolved
IPv6 address is rejected (with the private-network error) exactly when it
matches one of the eight textual tests of `isPrivateIPv6`: the literal
`::1`, the prefixes `fe80:`, `fc`, `fd`, or the IPv4-mapped prefixes
`::ffff:127.`, `::ffff:10.`, `::ffff:172.`, `::ffff:192.168.`.
IPv4-mapped addresses embedding other blocked ranges (for example
`::ffff:169.254.x.x` or `::ffff:100.64.x.x`), and `fe80::/10` addresses
not literally starting with `fe80:`, are accepted. -/
theorem validateDnsResolution_rejects_listed_v6 (rules : List (List Str))
    (hostname : Str) (dns : DnsOutcome) (r : ValidatedHost)
    (addrs : List Str) (a : Str)
    (hok : validateHost rules hostname = .ok r)
    (hv6 : dns.v6 = .ok addrs) (hmem : a ∈ addrs)
    (hpat : lowerC a = str "::1" ∨
      (str "fe80:").isPrefixOf (lowerC a) = true ∨
      (str "fc").isPrefixOf (lowerC a) = true ∨
      (str "fd").isPrefixOf (lowerC a) = true ∨
      (str "::ffff:127.").isPrefixOf (lowerC a) = true ∨
      (str "::ffff:10.").isPrefixOf (lowerC a) = true ∨
      (str "::ffff:172.").isPrefixOf (lowerC a) = true ∨
      (str "::ffff:192.168.").isPrefixOf (lowerC a) = true) :
    validateDnsResolution rules hostname dns = .error .privateNetworkTarget := by
  have hpriv : isPrivateIPv6 a = true := by
    unfold isPrivateIPv6
    simp only [Bool.or_eq_true, decide_eq_true_eq]
    tauto
  have hv6err : (match dns.v6 with
      | .error _ => (.ok [] : Except SsrfError (List Str))
      | .ok addrs => collectPublicV6 addrs) = .error .privateNetworkTarget := by
    rw [hv6]
    exact collectPublicV6_error_of_mem addrs a hmem hpriv
  unfold validateDnsResolution
  cases hstage4 : (match dns.v4 with
      | .error _ => (.ok [] : Except SsrfError (List Str))
      | .ok addrs => collectPublicV4 addrs) with
  | error e =>
      have he : e = .privateNetworkTarget := by
        cases h4 : dns.v4 with
        | error u => rw [h4] at hstage4; cases hstage4
        | ok as =>
            rw [h4] at hstage4
            exact collectPublicV4_error_is_private as e hstage4
      subst he
      simp only [hok, hstage4]
  | ok ipv4 => simp only [hok, hstage4, hv6err]

/-- C6 amended witness. -/
theorem validateDnsResolution_rejects_listed_v6_witness :
    validateDnsResolution [[str "com"]] (str "example.com")
      ⟨.error (), .ok [str "fe80::1"]⟩ = .error .privateNetworkTarget :=
  validateDnsResolution_rejects_listed_v6 [[str "com"]] (str "example.com")
    ⟨.error (), .ok [str "fe80::1"]⟩ ⟨str "example.com", str "example.com"⟩
    [str "fe80::1"] (str "fe80::1") rfl rfl (by decide)
    (Or.inr (Or.inl (by decide)))

end Calo

namespace Calo

/-! ## Theorems: C8 (redaction idempotence) -/

theorem reReplaceAll_zero (fuel : Nat) (r : RE) (tmpl : List Tmpl)
    (n : Nat) (left s : Str)
    (h : (reReplaceAll fuel r tmpl n left s).2 = 0) :
    (reReplaceAll fuel r tmpl n left s).1 = s := by
  cases n with
  | zero => rfl
  | succ n =>
      unfold reReplaceAll at h ⊢
      cases hs : reSearch fuel r left s with
      | none => rfl
      | some res =>
          obtain ⟨pre, m, rest, caps⟩ := res
          rw [hs] at h
          exfalso
          by_cases hm : m.isEmpty = true
          · cases rest with
            | nil => simp [hm] at h
            | cons c rest' => simp [hm] at h
          · simp [hm] at h

theorem redactPattern_zero (r : RE) (tmpl : List Tmpl) (s : Str)
    (h : (redactPattern r tmpl s).2 = 0) : (redactPattern r tmpl s).1 = s :=
  reReplaceAll_zero _ r tmpl _ [] s h

theorem redactFold_count_mono (pats : List (RE × List Tmpl))
    (acc : Str × Nat) :
    acc.2 ≤ (pats.foldl
      (fun acc pr =>
        let step := redactPattern pr.1 pr.2 acc.1
        (step.1, acc.2 + step.2)) acc).2 := by
  induction pats generalizing acc with
  | nil => exact le_refl _
  | cons pr pats ih =>
      rw [List.foldl_cons]
      refine le_trans ?_ (ih _)
      exact Nat.le_add_right _ _

theorem redactFold_zero (pats : List (RE × List Tmpl)) (s : Str)
    (h : (pats.foldl
      (fun acc pr =>
        let step := redactPattern pr.1 pr.2 acc.1
        (step.1, acc.2 + step.2)) (s, 0)).2 = 0) :
    (pats.foldl
      (fun acc pr =>
        let step := redactPattern pr.1 pr.2 acc.1
        (step.1, acc.2 + step.2)) (s, 0)).1 = s := by
  induction pats generalizing s with
  | nil => rfl
  | cons pr pats ih =>
      rw [List.foldl_cons] at h ⊢
      have hmono := redactFold_count_mono pats
        ((redactPattern pr.1 pr.2 s).1, 0 + (redactPattern pr.1 pr.2 s).2)
      have hcnt : (redactPattern pr.1 pr.2 s).2 = 0 := by
        simp only at h hmono
        omega
      have htext : (redactPattern pr.1 pr.2 s).1 = s :=
        redactPattern_zero pr.1 pr.2 s hcnt
      simp only [htext, hcnt] at h ⊢
      exact ih s h

/-- C8 counterexample: redaction is not idempotent.  On the 18-digit
input the phone rule matches only a suffix, leaving the digits `123`
in front of the placeholder; a second pass then redacts them too, so
`redact(redact(x).text)` differs from `redact(x)` and finds a new
match. -/
theorem redactText_not_idempotent :
    (redactText (str "123456789012345678")).1 = str "123[REDACTED_PHONE]" ∧
    (redactText ((redactText (str "123456789012345678")).1)).1 =
      str "[REDACTED_PHONE][REDACTED_PHONE]" ∧
    (redactText ((redactText (str "123456789012345678")).1)).1 ≠
      (redactText (str "123456789012345678")).1 ∧
    (redactText ((redactText (str "123456789012345678")).1)).2 = 1 :=
  ⟨by decide, by decide, by decide, by decide⟩

/-- C8 (amended): a second application of `redactText` changes nothing on
inputs where the first application finds no matches (then the text is
returned unchanged); in general redaction is not idempotent, because a
replacement can expose a new match to the next pass. -/
theorem redactText_id_of_no_matches (x : Str)
    (h : (redactText x).2 = 0) :
    (redactText x).1 = x ∧
      redactText ((redactText x).1) = redactText x := by
  unfold redactText at h ⊢
  by_cases hx : x.isEmpty = true
  · have hx' : x = [] := by simpa using hx
    subst hx'
    simp
  · rw [if_neg hx] at h ⊢
    have htext := redactFold_zero REDACTION_PATTERNS x h
    rw [htext, if_neg hx]
    exact ⟨rfl, rfl⟩

/-- C8 amended witness. -/
theorem redactText_id_of_no_matches_witness :
    (redactText (str "hello")).2 = 0 ∧
      (redactText (str "hello")).1 = str "hello" ∧
      redactText ((redactText (str "hello")).1) = redactText (str "hello") :=
  ⟨by decide, (redactText_id_of_no_matches (str "hello") (by decide)).1,
    (redactText_id_of_no_matches (str "hello") (by decide)).2⟩

end Calo

namespace Calo

/-! ## Theorems: C2, C3, C4 (executor and worker lifecycle) -/

theorem dnsLoop_no_validate (cfg : RateLimiterConfig) (now : Nat)
    (runId : String) (digOut : Str → OpOutcome Str) (tys : List Str)
    (rl : RateLimiterState) (t : Str) :
    Event.validateTarget t ∉ (dnsLoop cfg now runId digOut tys rl).2.2 := by
  induction tys generalizing rl with
  | nil => simp [dnsLoop]
  | cons ty rest ih =>
      unfold dnsLoop
      cases hw : waitForRequestSlot cfg rl runId now with
      | mk res rl' =>
          cases res with
          | error e => cases e; simp
          | ok n =>
              have ih' := ih rl'
              rcases hrec : dnsLoop cfg now runId digOut rest rl' with ⟨res2, rl2, evs⟩
              rw [hrec] at ih'
              simp only at ih'
              cases hop : withTimeout cfg.timeoutMs (digOut ty) with
              | error e =>
                  simp only [hrec, List.mem_cons, not_or]
                  exact ⟨by simp, ih'⟩
              | ok stdout =>
                  simp only [hrec]
                  cases res2 with
                  | error e =>
                      simp only [List.mem_cons, not_or]
                      exact ⟨by simp, ih'⟩
                  | ok results =>
                      simp only [List.mem_cons, not_or]
                      exact ⟨by simp, ih'⟩

theorem executeTool_no_validate (cfg : RateLimiterConfig)
    (rl : RateLimiterState) (now : Nat) (assessmentId toolRunId : Str)
    (runId : String) (job : ProbeJob) (t : Str) :
    Event.validateTarget t ∉
      (executeTool cfg rl now assessmentId toolRunId runId job).2.2 := by
  cases job with
  | tls execOut =>
      unfold executeTool executeTlsCheck
      cases hw : waitForRequestSlot cfg (resetRunState rl runId) runId now with
      | mk res rl' =>
          cases res with
          | error e => cases e; simp
          | ok n =>
              cases hop : withTimeout cfg.timeoutMs execOut with
              | ok v =>
                  obtain ⟨o, s⟩ := v
                  simp only [hop, List.mem_cons, List.not_mem_nil, not_or]
                  exact ⟨by simp, by simp, by simp⟩
              | error e =>
                  simp only [hop]
                  simp
  | dns digOut =>
      unfold executeTool executeDnsLookup
      have hno := dnsLoop_no_validate cfg now runId digOut recordTypes
        (resetRunState rl runId) t
      rcases hd : dnsLoop cfg now runId digOut recordTypes (resetRunState rl runId)
        with ⟨res, rl', evs⟩
      rw [hd] at hno
      simp only at hno
      simp only [hd]
      cases res with
      | error e => simpa using hno
      | ok results =>
          intro hmem
          simp only [List.mem_append, List.mem_cons, List.not_mem_nil,
            or_false] at hmem
          rcases hmem with h | h
          · exact hno h
          · cases h

/-- C3: the worker job processor transitions a dequeued run straight to
RUNNING after acquiring an execution slot and performs no target
validation whatsoever during the run's execution — the only
`validateTarget` in the pipeline happens in `ToolRunsService.enqueue`,
at queueing time. -/
theorem worker_sets_running_without_validation (cfg : RateLimiterConfig)
    (rl : RateLimiterState) (now : Nat) (assessmentId toolRunId : Str)
    (runId : String) (job : ProbeJob) :
    (workerProcess cfg rl now assessmentId toolRunId runId job).2.take 2 =
        [Event.acquireSlot, Event.statusUpdate .running] ∧
      (∀ t, Event.validateTarget t ∉
        (workerProcess cfg rl now assessmentId toolRunId runId job).2) ∧
      (∀ target, Event.validateTarget target ∈ enqueueEvents target) := by
  have hno := executeTool_no_validate cfg rl now assessmentId toolRunId runId job
  unfold workerProcess
  rcases hstep : executeTool cfg rl now assessmentId toolRunId runId job
    with ⟨res, rl', evs⟩
  rw [hstep] at hno
  simp only at hno
  simp only [hstep]
  refine ⟨?_, ?_, fun target => by simp [enqueueEvents]⟩
  · cases res <;> rfl
  · intro t
    cases res with
    | error e =>
        intro hmem
        simp only [List.mem_cons, List.mem_append, List.not_mem_nil,
          or_false] at hmem
        rcases hmem with (h | h | h) | h | h <;>
          first
          | exact hno t h
          | cases h
    | ok r =>
        intro hmem
        simp only [List.mem_cons, List.mem_append, List.not_mem_nil,
          or_false] at hmem
        rcases hmem with (h | h | h) | h | h <;>
          first
          | exact hno t h
          | cases h

/-- C4: a TLS probe whose single outbound call loses the `withTimeout`
race ends with the run persisted as COMPLETED, not TIMEOUT: the probe's
`catch` swallows the timeout error into a `success: false` result, so the
worker's success path runs; and even if the error escaped, the worker's
classifier looks for the substring `timeout` while `createTimeout`'s
message says `timed out`, so it would classify the run as FAILED. -/
theorem tls_timeout_run_marked_completed :
    (workerProcess ⟨1000, 50, 2, 30000⟩ .init 0 (str "as1") (str "run1")
        "run1" (.tls .timedOut)).1 = .completed ∧
      ToolRunStatus.completed ≠ .timeout ∧
      (executeTlsCheck ⟨1000, 50, 2, 30000⟩ (resetRunState .init "run1") 0
          (str "as1") (str "run1") "run1" .timedOut).1 =
        .ok ⟨false, str "TLS check failed: " ++ timeoutMessage 30000, none, 1, 1⟩ ∧
      jsIncludes (timeoutMessage 30000) (str "timeout") = false ∧
      jsIncludes (timeoutMessage 30000) (str "timed out") = true :=
  ⟨by decide, by decide, rfl, by decide, by decide⟩

/-- C2: a DNS_LOOKUP run whose TXT record carries an email address
uploads the raw JSON serialization to the blob store without redaction:
the uploaded text still contains the email and differs from its own
redaction (`executeDnsLookup` never calls `redactOutput`; of the seven
probes only `executeTlsCheck` and `executeHeaderCheck` redact before
uploading). -/
theorem dnsLookup_uploads_unredacted_capture :
    Event.upload
        (str "\x7b\n  \"TXT\": [\n    \"v=spf1 include:x admin@example.com\"\n  ]\n\x7d")
        (str "stdout") ∈
      (workerProcess ⟨1000, 50, 2, 30000⟩ .init 0 (str "as1") (str "run1")
        "run1" (.dns fun ty =>
          if ty = str "TXT"
          then .completed (str "v=spf1 include:x admin@example.com\n")
          else .failed ⟨str "no records"⟩)).2 ∧
    jsIncludes
        (str "\x7b\n  \"TXT\": [\n    \"v=spf1 include:x admin@example.com\"\n  ]\n\x7d")
        (str "admin@example.com") = true ∧
    redactOutput
        (str "\x7b\n  \"TXT\": [\n    \"v=spf1 include:x admin@example.com\"\n  ]\n\x7d") ≠
      (str "\x7b\n  \"TXT\": [\n    \"v=spf1 include:x admin@example.com\"\n  ]\n\x7d") :=
  ⟨by decide, by decide, by decide⟩

end Calo
